import Mathlib

namespace Kev

/-- 64-bit two's-complement wraparound, as Go `int64` arithmetic behaves. -/
def wrap64 (n : Int) : Int :=
  ((n + 2 ^ 63) % 2 ^ 64) - 2 ^ 63

/-- 64-bit FNV-1a hash of a byte sequence (Go `hash/fnv`, `New64a`). -/
def fnv1a64 (bytes : List Nat) : Nat :=
  bytes.foldl (fun h b => ((h ^^^ b % 256) * 1099511628211) % 2 ^ 64) 14695981039346047157

/-- UTF-8 bytes of one character, as Go produces for `[]byte(s)`. -/
def charUtf8Bytes (c : Char) : List Nat :=
  let n := c.toNat
  if n < 0x80 then [n]
  else if n < 0x800 then [0xC0 ||| (n >>> 6), 0x80 ||| (n &&& 0x3F)]
  else if n < 0x10000 then
    [0xE0 ||| (n >>> 12), 0x80 ||| ((n >>> 6) &&& 0x3F), 0x80 ||| (n &&& 0x3F)]
  else
    [0xF0 ||| (n >>> 18), 0x80 ||| ((n >>> 12) &&& 0x3F),
     0x80 ||| ((n >>> 6) &&& 0x3F), 0x80 ||| (n &&& 0x3F)]

/-- The byte sequence of a Go string value (`[]byte(s)`). -/
def strBytes (s : String) : List Nat :=
  s.data.flatMap charUtf8Bytes

deriving instance DecidableEq for Except

/-- The ways the Go runtime can fault (panic) while the interpreter runs.
These are host faults, distinct from the language's own `Error` values. -/
inductive GoPanic where
  | divisionByZero
  | indexOutOfRange
  | nilDereference
  | typeAssertionFailed
  deriving DecidableEq, Repr

/- ===== Token model (src/token/token.go) =====
Token kinds are Go string constants.  The constants defined at
src/token/token.go:3-35 are reproduced below.  `STRING` is referenced by
src/lexer/lexer.go:83 but its declaration is missing from src/token/token.go;
it is modelled from the spec (token enumeration lists a `STRING` kind). -/

namespace token

def ILLEGAL : String := "ILLEGAL"
def EOF : String := "EOF"
def IDENT : String := "IDENT"
def INT : String := "INT"
def ASSIGN : String := "="
def COMMA : String := ","
def SEMICOLON : String := ";"
def LPAREN : String := "("
def RPAREN : String := ")"
def LBRACE : String := "\x7b"
def RBRACE : String := "\x7d"
def FUNCTION : String := "FUNCTION"
def VAR : String := "VAR"
def IF : String := "IF"
def ELSE : String := "ELSE"
def RETURN : String := "RETURN"
def PLUS : String := "+"
def MINUS : String := "-"
def BANG : String := "!"
def ASTERISK : String := "*"
def SLASH : String := "/"
def LT : String := "<"
def GT : String := ">"
def TRUE : String := "TRUE"
def FALSE : String := "FALSE"
def EQ : String := "=="
def NE : String := "!="

/-- Modelled from the spec: the token enumeration includes a `STRING` kind
(`src/token/token.go` as given omits the constant although
`src/lexer/lexer.go:83` uses it). -/
def STRING : String := "STRING"

/-- A token: kind plus the literal lexeme (a Go string, i.e. a byte sequence). -/
structure Token where
  type : String
  literal : List Nat
  deriving DecidableEq, Repr

/-- The keyword table and `LookupIdent` (src/token/token.go:44-61). -/
def LookupIdent (ident : List Nat) : String :=
  if ident = strBytes "func" then FUNCTION
  else if ident = strBytes "var" then VAR
  else if ident = strBytes "if" then IF
  else if ident = strBytes "else" then ELSE
  else if ident = strBytes "return" then RETURN
  else if ident = strBytes "true" then TRUE
  else if ident = strBytes "false" then FALSE
  else IDENT

end token

/- ===== Lexer (src/lexer/lexer.go) ===== -/

/-- The lexer state: the input byte string and the three cursors
(src/lexer/lexer.go:5-10).  `ch` is the byte under examination (0 at EOF). -/
structure Lexer where
  input : List Nat
  position : Nat
  readPosition : Nat
  ch : Nat
  deriving DecidableEq, Repr

namespace Lexer

/-- readChar (src/lexer/lexer.go:20-32): load the byte at `readPosition`
(or 0 past the end) and advance both cursors. -/
def readChar (l : Lexer) : Lexer :=
  let c := if l.readPosition ≥ l.input.length then 0 else l.input.getD l.readPosition 0
  { l with ch := c, position := l.readPosition, readPosition := l.readPosition + 1 }

/-- New (src/lexer/lexer.go:12-16). -/
def New (input : List Nat) : Lexer :=
  readChar { input := input, position := 0, readPosition := 0, ch := 0 }

/-- peekChar (src/lexer/lexer.go:167-173).  The source guard is the strict
`l.readPosition > len(l.input)`; when `readPosition = len` the else branch
executes `l.input[l.readPosition]`, an out-of-range string index, which is a
Go run-time panic.  The three cases below are: the guard, the in-range read,
and the out-of-range fault at `readPosition = len`. -/
def peekChar (l : Lexer) : Except GoPanic Nat :=
  if l.readPosition > l.input.length then .ok 0
  else if l.readPosition < l.input.length then .ok (l.input.getD l.readPosition 0)
  else .error .indexOutOfRange

/-- isLetter (src/lexer/lexer.go:148-150). -/
def isLetter (c : Nat) : Bool :=
  (97 ≤ c && c ≤ 122) || (65 ≤ c && c ≤ 90) || c == 95

/-- isDigit (src/lexer/lexer.go:154-156). -/
def isDigit (c : Nat) : Bool :=
  48 ≤ c && c ≤ 57

/-- The loop of eatWhitespace (src/lexer/lexer.go:159-163), with fuel for
termination; `nextToken` passes fuel exceeding any possible iteration count. -/
def eatWhitespaceLoop : Nat → Lexer → Lexer
  | 0, l => l
  | fuel + 1, l =>
    if l.ch == 32 || l.ch == 9 || l.ch == 10 || l.ch == 13 then
      eatWhitespaceLoop fuel l.readChar
    else l

/-- eatWhitespace (src/lexer/lexer.go:159-163). -/
def eatWhitespace (l : Lexer) : Lexer :=
  eatWhitespaceLoop (l.input.length + 2) l

/-- Go slice `l.input[a:b]`. -/
def sliceBytes (input : List Nat) (a b : Nat) : List Nat :=
  (input.drop a).take (b - a)

/-- The loop of readIdentifier (src/lexer/lexer.go:113-119). -/
def readIdentifierLoop : Nat → Lexer → Lexer
  | 0, l => l
  | fuel + 1, l => if isLetter l.ch then readIdentifierLoop fuel l.readChar else l

/-- readIdentifier (src/lexer/lexer.go:113-119): returns the lexeme slice and
the advanced lexer. -/
def readIdentifier (l : Lexer) : List Nat × Lexer :=
  let l' := readIdentifierLoop (l.input.length + 2) l
  (sliceBytes l.input l.position l'.position, l')

/-- The loop of readNumber (src/lexer/lexer.go:124-130). -/
def readNumberLoop : Nat → Lexer → Lexer
  | 0, l => l
  | fuel + 1, l => if isDigit l.ch then readNumberLoop fuel l.readChar else l

/-- readNumber (src/lexer/lexer.go:124-130). -/
def readNumber (l : Lexer) : List Nat × Lexer :=
  let l' := readNumberLoop (l.input.length + 2) l
  (sliceBytes l.input l.position l'.position, l')

/-- The loop of readString (src/lexer/lexer.go:135-144): advance first, stop
on a closing quote (34) or 0. -/
def readStringLoop : Nat → Lexer → Lexer
  | 0, l => l
  | fuel + 1, l =>
    let l' := l.readChar
    if l'.ch == 34 || l'.ch == 0 then l' else readStringLoop fuel l'

/-- readString (src/lexer/lexer.go:135-144): the lexeme starts one past the
opening quote and excludes the terminator. -/
def readString (l : Lexer) : List Nat × Lexer :=
  let start := l.position + 1
  let l' := readStringLoop (l.input.length + 2) l
  (sliceBytes l.input start l'.position, l')

/-- newToken (src/lexer/lexer.go:106-108). -/
def newToken (tokenType : String) (ch : Nat) : token.Token :=
  { type := tokenType, literal := [ch] }

/-- NextToken (src/lexer/lexer.go:36-103).  Mirrors the Go switch on `l.ch`;
the `=` and `!` branches consult `peekChar`, whose out-of-range fault
propagates as a `GoPanic`.  The identifier and number branches return without
the trailing `readChar`, exactly as the Go early returns do. -/
def NextToken (l₀ : Lexer) : Except GoPanic (token.Token × Lexer) := do
  let l := eatWhitespace l₀
  if l.ch == 61 then
    let p ← peekChar l
    if p == 61 then
      let ch := l.ch
      let l' := l.readChar
      pure (⟨token.EQ, [ch, l'.ch]⟩, l'.readChar)
    else
      pure (newToken token.ASSIGN l.ch, l.readChar)
  else if l.ch == 33 then
    let p ← peekChar l
    if p == 61 then
      let ch := l.ch
      let l' := l.readChar
      pure (⟨token.NE, [ch, l'.ch]⟩, l'.readChar)
    else
      pure (newToken token.BANG l.ch, l.readChar)
  else if l.ch == 59 then pure (newToken token.SEMICOLON l.ch, l.readChar)
  else if l.ch == 40 then pure (newToken token.LPAREN l.ch, l.readChar)
  else if l.ch == 41 then pure (newToken token.RPAREN l.ch, l.readChar)
  else if l.ch == 44 then pure (newToken token.COMMA l.ch, l.readChar)
  else if l.ch == 43 then pure (newToken token.PLUS l.ch, l.readChar)
  else if l.ch == 123 then pure (newToken token.LBRACE l.ch, l.readChar)
  else if l.ch == 125 then pure (newToken token.RBRACE l.ch, l.readChar)
  else if l.ch == 45 then pure (newToken token.MINUS l.ch, l.readChar)
  else if l.ch == 42 then pure (newToken token.ASTERISK l.ch, l.readChar)
  else if l.ch == 47 then pure (newToken token.SLASH l.ch, l.readChar)
  else if l.ch == 60 then pure (newToken token.LT l.ch, l.readChar)
  else if l.ch == 62 then pure (newToken token.GT l.ch, l.readChar)
  else if l.ch == 34 then
    let (s, l') := readString l
    pure (⟨token.STRING, s⟩, l'.readChar)
  else if l.ch == 0 then
    pure (⟨token.EOF, []⟩, l.readChar)
  else if isLetter l.ch then
    let (lit, l') := readIdentifier l
    pure (⟨token.LookupIdent lit, lit⟩, l')
  else if isDigit l.ch then
    let (lit, l') := readNumber l
    pure (⟨token.INT, lit⟩, l')
  else
    pure (newToken token.ILLEGAL l.ch, l.readChar)

end Lexer

/- ===== AST model (src/ast/ast.go, with the array / hash / string / index
nodes that src/parser/parser.go builds) =====
Token fields carried by every Go node serve only error reporting and
stringification; they are omitted here.  `Identifier` carries its name,
`FunctionLiteral` carries its parameter names, and a block is its statement
list.  `HashLiteral.Pairs` is a Go `map[ast.Expression]ast.Expression`
(parser.go:744); each parsed key is a freshly allocated node, so every parsed
pair occupies its own entry, and the map itself retains no order.  The list
below records the pairs in the (unspecified) order in which a Go `range` over
that map would present them to the evaluator; the parser inserts them in
source order, but iteration order is independent of insertion order. -/

mutual

inductive Expr where
  | Identifier (value : String)
  | IntegerLiteral (value : Int)
  | StringLiteral (value : String)
  | Boolean (value : Bool)
  | PrefixExpression (operator : String) (right : Expr)
  | InfixExpression (left : Expr) (operator : String) (right : Expr)
  | IfExpression (condition : Expr) (consequence : List Stmt)
      (alternative : Option (List Stmt))
  | FunctionLiteral (parameters : List String) (body : List Stmt)
  | CallExpression (function : Expr) (arguments : List Expr)
  | ArrayLiteral (elements : List Expr)
  | IndexExpression (left : Expr) (index : Expr)
  | HashLiteral (pairs : List (Expr × Expr))
  deriving Repr

inductive Stmt where
  | VarStatement (name : String) (value : Expr)
  | ReturnStatement (returnValue : Expr)
  | ExpressionStatement (expression : Expr)
  | BlockStatement (statements : List Stmt)
  deriving Repr

end

/-- An `ast.Node` as dispatched on by Eval (a program, statement or
expression). -/
inductive Node where
  | prog (statements : List Stmt)
  | stmt (s : Stmt)
  | expr (e : Expr)

/- ===== Object model (src/unnamed/part_003, package object) ===== -/

/-- HashKey (part_003:82-85): a type tag plus a uint64 discriminant.
Go field names are `Type` and `Value`. -/
structure HashKey where
  typeTag : String
  value : Nat
  deriving DecidableEq, Repr

/-- A runtime value (`object.Object`).  Constructor names carry an `O` suffix
to avoid clashing with the Lean types of the same names; they correspond
one-to-one to the Go structs Integer, String, Boolean, Null, ReturnValue,
Error, Array, Function, Builtin, Hash.  `FunctionO` captures its environment
by index into the interpreter state, mirroring the Go `Env *Environment`
pointer; `BuiltinO` carries the builtin's name (Go stores the host closure,
which is determined by the name).  `nilO` is the nil `object.Object`
interface value, which flows through the evaluator (for example, an empty
block or a var statement evaluates to Go `nil`). -/
inductive Object where
  | IntegerO (value : Int)
  | StringO (value : String)
  | BooleanO (value : Bool)
  | NullO
  | ReturnValueO (value : Object)
  | ErrorO (message : String)
  | ArrayO (elements : List Object)
  | FunctionO (parameters : List String) (body : List Stmt) (env : Nat)
  | BuiltinO (name : String)
  | HashO (pairs : List (HashKey × Object × Object))
  | nilO
  deriving Repr

def INTEGER_OBJ : String := "INTEGER"
def STRING_OBJ : String := "STRING"
def BOOLEAN_OBJ : String := "BOOLEAN"
def NULL_OBJ : String := "NULL"
def RETURN_VALUE_OBJ : String := "RETURN_VALUE"
def ERROR_OBJ : String := "ERROR"
def FUNCTION_OBJ : String := "FUNCTION"
def BUILTIN_OBJ : String := "BUILTIN"
def ARRAY_OBJ : String := "ARRAY"
def HASH_OBJ : String := "HASH"

/-- The `Type()` method of each object struct (part_003).  Never called on
`nilO` without a fault; see `typeOrPanic`. -/
def Object.TypeOf : Object → String
  | .IntegerO _ => INTEGER_OBJ
  | .StringO _ => STRING_OBJ
  | .BooleanO _ => BOOLEAN_OBJ
  | .NullO => NULL_OBJ
  | .ReturnValueO _ => RETURN_VALUE_OBJ
  | .ErrorO _ => ERROR_OBJ
  | .ArrayO _ => ARRAY_OBJ
  | .FunctionO _ _ _ => FUNCTION_OBJ
  | .BuiltinO _ => BUILTIN_OBJ
  | .HashO _ => HASH_OBJ
  | .nilO => ""

/-- Calling `.Type()` on a nil interface value is a Go nil-pointer fault. -/
def typeOrPanic : Object → Except GoPanic String
  | .nilO => .error .nilDereference
  | o => .ok o.TypeOf

/-- The Hashable cast plus the HashKey() methods (part_003:91-113): Boolean
maps to 0/1, Integer to `uint64(value)` (two's complement), String to the
64-bit FNV-1a of its bytes.  `none` means the object does not implement
Hashable. -/
def Object.HashKeyOf : Object → Option HashKey
  | .BooleanO b => some ⟨BOOLEAN_OBJ, if b then 1 else 0⟩
  | .IntegerO i => some ⟨INTEGER_OBJ, (i % 2 ^ 64).toNat⟩
  | .StringO s => some ⟨STRING_OBJ, fnv1a64 (strBytes s)⟩
  | _ => none

/-- The interpreter's singletons NULL, TRUE, FALSE (part_000:10-22). -/
def NULL : Object := .NullO
def TRUE : Object := .BooleanO true
def FALSE : Object := .BooleanO false

/-- nativeBoolToBooleanObject (part_000:260-265). -/
def nativeBoolToBooleanObject (input : Bool) : Object :=
  if input then TRUE else FALSE

/-- newError (part_000:533-535); the formatted message is passed in. -/
def newError (message : String) : Object := .ErrorO message

/-- isError (part_000:538-543); Go checks `obj != nil` first, so `nilO` is
not an error. -/
def isError : Object → Bool
  | .ErrorO _ => true
  | _ => false

/-- isTruthy (part_000:519-530).  The Go switch compares against the interned
NULL/TRUE/FALSE pointers; every Boolean or Null the evaluator produces is one
of those singletons, so matching on the values is faithful for all reachable
objects.  Anything else — including `nilO` — takes the default and is
truthy. -/
def isTruthy : Object → Bool
  | .NullO => false
  | .BooleanO true => true
  | .BooleanO false => false
  | _ => true

/-- evalBangOperatorExpression (part_000:245-256).  As with `isTruthy`, the
Go switch is over the interned singletons; everything else (nil included)
takes the default branch and yields FALSE. -/
def evalBangOperatorExpression : Object → Object
  | .BooleanO true => FALSE
  | .BooleanO false => TRUE
  | .NullO => TRUE
  | _ => FALSE

/-- evalMinusPrefixOperatorExpression (part_000:269-282).  The `.Type()` call
faults on a nil operand; the type assertion after the INTEGER check cannot
fail. -/
def evalMinusPrefixOperatorExpression (right : Object) : Except GoPanic Object := do
  let t ← typeOrPanic right
  if t ≠ INTEGER_OBJ then
    pure (newError ("unknown operator: -" ++ t))
  else
    match right with
    | .IntegerO value => pure (.IntegerO (wrap64 (-value)))
    | _ => .error .typeAssertionFailed

/-- evalPrefixExpression (part_000:232-241). -/
def evalPrefixExpression (operator : String) (right : Object) : Except GoPanic Object :=
  if operator = "!" then pure (evalBangOperatorExpression right)
  else if operator = "-" then evalMinusPrefixOperatorExpression right
  else do
    let t ← typeOrPanic right
    pure (newError ("unknown operator: " ++ operator ++ t))

/-- evalIntegerInfixExpression (part_000:316-340).  Go int64 arithmetic:
`+ - *` wrap on overflow; `/` is the host's truncated division, whose zero
divisor is a run-time panic (the source has no guard), and whose sole
overflow case MinInt64 / -1 wraps. -/
def evalIntegerInfixExpression (operator : String) (left right : Object) :
    Except GoPanic Object :=
  match left, right with
  | .IntegerO leftValue, .IntegerO rightValue =>
    if operator = "+" then pure (.IntegerO (wrap64 (leftValue + rightValue)))
    else if operator = "-" then pure (.IntegerO (wrap64 (leftValue - rightValue)))
    else if operator = "*" then pure (.IntegerO (wrap64 (leftValue * rightValue)))
    else if operator = "/" then
      if rightValue = 0 then .error .divisionByZero
      else pure (.IntegerO (wrap64 (Int.tdiv leftValue rightValue)))
    else if operator = "<" then pure (nativeBoolToBooleanObject (leftValue < rightValue))
    else if operator = ">" then pure (nativeBoolToBooleanObject (rightValue < leftValue))
    else if operator = "==" then pure (nativeBoolToBooleanObject (leftValue = rightValue))
    else if operator = "!=" then pure (nativeBoolToBooleanObject (leftValue ≠ rightValue))
    else pure (newError ("unknown operator: " ++ left.TypeOf ++ " " ++ operator ++
      " " ++ right.TypeOf))
  | _, _ => .error .typeAssertionFailed

/-- evalStringInfixExpression (part_000:345-358). -/
def evalStringInfixExpression (operator : String) (left right : Object) :
    Except GoPanic Object :=
  match left, right with
  | .StringO leftValue, .StringO rightValue =>
    if operator = "==" then pure (nativeBoolToBooleanObject (leftValue = rightValue))
    else if operator = "!=" then pure (nativeBoolToBooleanObject (leftValue ≠ rightValue))
    else if operator = "+" then pure (.StringO (leftValue ++ rightValue))
    else pure (newError ("unknown operator: " ++ left.TypeOf ++ " " ++ operator ++
      " " ++ right.TypeOf))
  | _, _ => .error .typeAssertionFailed

/-- evalBooleanInfixExpression (part_000:363-375). -/
def evalBooleanInfixExpression (operator : String) (left right : Object) :
    Except GoPanic Object :=
  match left, right with
  | .BooleanO leftValue, .BooleanO rightValue =>
    if operator = "==" then pure (nativeBoolToBooleanObject (leftValue = rightValue))
    else if operator = "!=" then pure (nativeBoolToBooleanObject (leftValue ≠ rightValue))
    else pure (newError ("unknown operator: " ++ left.TypeOf ++ " " ++ operator ++
      " " ++ right.TypeOf))
  | _, _ => .error .typeAssertionFailed

/-- evalInfixExpression (part_000:284-311).  The `.Type()` calls fault on nil
operands; the switch cases keep the source order: integer pair, boolean pair,
type mismatch, string pair, unknown operator. -/
def evalInfixExpression (operator : String) (left right : Object) :
    Except GoPanic Object := do
  let lt ← typeOrPanic left
  let rt ← typeOrPanic right
  if lt = INTEGER_OBJ ∧ rt = INTEGER_OBJ then
    evalIntegerInfixExpression operator left right
  else if lt = BOOLEAN_OBJ ∧ rt = BOOLEAN_OBJ then
    evalBooleanInfixExpression operator left right
  else if lt ≠ rt then
    pure (newError ("type mismatch: " ++ lt ++ " " ++ operator ++ " " ++ rt))
  else if lt = STRING_OBJ ∧ rt = STRING_OBJ then
    evalStringInfixExpression operator left right
  else
    pure (newError ("unknown operator: " ++ lt ++ " " ++ operator ++ " " ++ rt))

/-- Lookup in a Go `map[HashKey]HashPair` value, represented as an entry
list with at most one entry per key. -/
def hashPairsGet : List (HashKey × Object × Object) → HashKey → Option (Object × Object)
  | [], _ => none
  | (k, pair) :: rest, key => if k = key then some pair else hashPairsGet rest key

/-- Assignment `pairs[hashed] = HashPair{...}` into a Go map value: replaces
the entry with the same key, otherwise adds one. -/
def hashPairsSet (pairs : List (HashKey × Object × Object)) (key : HashKey)
    (keyObj valueObj : Object) : List (HashKey × Object × Object) :=
  match pairs with
  | [] => [(key, keyObj, valueObj)]
  | (k, pair) :: rest =>
    if k = key then (key, keyObj, valueObj) :: rest
    else (k, pair) :: hashPairsSet rest key keyObj valueObj

/-- evalArrayIndexExpression (part_000:434-444): `max` is `int64(len - 1)`;
out-of-range (including every negative) index yields NULL, otherwise the
element is returned.  The type assertions mirror the Go ones. -/
def evalArrayIndexExpression (array index : Object) : Except GoPanic Object :=
  match array, index with
  | .ArrayO elements, .IntegerO idx =>
    let mx : Int := (elements.length : Int) - 1
    if idx < 0 ∨ mx < idx then pure NULL
    else pure (elements.getD idx.toNat NULL)
  | _, _ => .error .typeAssertionFailed

/-- evalHashIndexExpression (part_000:446-457). -/
def evalHashIndexExpression (hash index : Object) : Except GoPanic Object :=
  match hash with
  | .HashO pairs =>
    match index.HashKeyOf with
    | none => do
      let t ← typeOrPanic index
      pure (newError ("unusable as hash key: " ++ t))
    | some key =>
      match hashPairsGet pairs key with
      | none => pure NULL
      | some pair => pure pair.2
  | _ => .error .typeAssertionFailed

/-- evalIndexExpression (part_000:423-432).  `left.Type()` faults on nil;
`index.Type()` is consulted only when the receiver is an array, as in the Go
short-circuit `left.Type() == ARRAY_OBJ && index.Type() == INTEGER_OBJ`. -/
def evalIndexExpression (left index : Object) : Except GoPanic Object := do
  let lt ← typeOrPanic left
  if lt = ARRAY_OBJ then
    let it ← typeOrPanic index
    if it = INTEGER_OBJ then evalArrayIndexExpression left index
    else pure (newError ("index operator not supported: " ++ lt))
  else if lt = HASH_OBJ then
    evalHashIndexExpression left index
  else
    pure (newError ("index operator not supported: " ++ lt))

/-- unwrapReturnValue (part_000:510-515). -/
def unwrapReturnValue : Object → Object
  | .ReturnValueO value => value
  | obj => obj

/- ===== Environments (src/unnamed/part_003, lines 240-275) ===== -/

/-- An environment record: the `store` map and the optional outer
environment, referenced by index into the interpreter state (the Go code
uses a pointer). -/
structure Environment where
  store : List (String × Object)
  outer : Option Nat
  deriving Repr

/-- The interpreter state: every environment allocated so far.  Go reaches
environments through pointers; here an environment is its index. -/
abbrev St := List Environment

/-- Lookup in a Go `map[string]Object`. -/
def storeGet : List (String × Object) → String → Option Object
  | [], _ => none
  | (k, v) :: rest, name => if k = name then some v else storeGet rest name

/-- Assignment into a Go `map[string]Object`. -/
def storeSet (store : List (String × Object)) (name : String) (val : Object) :
    List (String × Object) :=
  match store with
  | [] => [(name, val)]
  | (k, v) :: rest =>
    if k = name then (name, val) :: rest else (k, v) :: storeSet rest name val

/-- Environment.Get (part_003:262-268): look in the store, then recurse into
outer.  Fueled; outer chains are finite in any reachable state. -/
def envGetLoop : Nat → St → Nat → String → Option Object
  | 0, _, _, _ => none
  | fuel + 1, st, envId, name =>
    let env := st.getD envId ⟨[], none⟩
    match storeGet env.store name with
    | some v => some v
    | none =>
      match env.outer with
      | some outerId => envGetLoop fuel st outerId name
      | none => none

/-- Environment.Get with fuel covering the whole state. -/
def envGet (st : St) (envId : Nat) (name : String) : Option Object :=
  envGetLoop (st.length + 1) st envId name

/-- Environment.Set (part_003:272-275): writes into the designated
environment's own store (Go mutates through the pointer; here the state is
rebuilt with environment `envId` updated). -/
def envSet (st : St) (envId : Nat) (name : String) (val : Object) : St :=
  match st, envId with
  | [], _ => []
  | env :: rest, 0 => { env with store := storeSet env.store name val } :: rest
  | env :: rest, i + 1 => env :: envSet rest i name val

/-- NewEnvironment (part_003:240-243) for the top-level session. -/
def newEnvironmentSt : St := [⟨[], none⟩]

/- ===== Built-in functions (src/evaluator/builtins.go) ===== -/

/-- Whether `Inspect()` can be called on the object without a nil fault:
array elements, hash pair objects and return-value payloads are inspected
recursively; a nil interface anywhere faults. -/
def inspectSafe : Object → Bool
  | .nilO => false
  | .ReturnValueO v => inspectSafe v
  | .ArrayO elements => goList elements
  | .HashO pairs => goPairs pairs
  | _ => true
where
  goList : List Object → Bool
    | [] => true
    | o :: rest => inspectSafe o && goList rest
  goPairs : List (HashKey × Object × Object) → Bool
    | [] => true
    | (_, k, v) :: rest => inspectSafe k && inspectSafe v && goPairs rest

/-- The names in the builtins map (builtins.go:8-105). -/
def builtins (name : String) : Option Object :=
  if name = "print" ∨ name = "len" ∨ name = "first" ∨ name = "last" ∨
      name = "tail" ∨ name = "push" then
    some (.BuiltinO name)
  else none

/-- The host implementations of the builtins (builtins.go), dispatched by the
name under which the closure is stored in the map.  `print` writes each
argument's `Inspect()` to standard output (the text itself is not modelled;
the nil fault inside `Inspect` is) and returns the empty String.  `len` of a
String is its byte length.  The type assertions after the ARRAY checks
mirror the Go ones and cannot fail; the final catch-all is unreachable,
since Builtin objects only carry names present in the map. -/
def applyBuiltin (name : String) (args : List Object) : Except GoPanic Object :=
  match name with
  | "print" =>
    if args.all inspectSafe then pure (.StringO "") else .error .nilDereference
  | "len" =>
    if args.length ≠ 1 then
      pure (newError ("wrong number of arguments. got=" ++ toString args.length ++
        ", want=1"))
    else
      match args.getD 0 .nilO with
      | .StringO s => pure (.IntegerO ((strBytes s).length : Int))
      | .ArrayO elements => pure (.IntegerO (elements.length : Int))
      | arg => do
        let t ← typeOrPanic arg
        pure (newError ("argument to `len` not supported, got " ++ t))
  | "first" =>
    if args.length ≠ 1 then
      pure (newError ("wrong number of arguments. got=" ++ toString args.length ++
        ", want=1"))
    else do
      let t ← typeOrPanic (args.getD 0 .nilO)
      if t ≠ ARRAY_OBJ then
        pure (newError ("argument to `first` must be ARRAY, got " ++ t))
      else
        match args.getD 0 .nilO with
        | .ArrayO elements =>
          match elements with
          | e :: _ => pure e
          | [] => pure NULL
        | _ => .error .typeAssertionFailed
  | "last" =>
    if args.length ≠ 1 then
      pure (newError ("wrong number of arguments. got=" ++ toString args.length ++
        ", want=1"))
    else do
      let t ← typeOrPanic (args.getD 0 .nilO)
      if t ≠ ARRAY_OBJ then
        pure (newError ("argument to `last` must be ARRAY, got " ++ t))
      else
        match args.getD 0 .nilO with
        | .ArrayO elements =>
          if elements.length > 0 then pure (elements.getLastD NULL) else pure NULL
        | _ => .error .typeAssertionFailed
  | "tail" =>
    if args.length ≠ 1 then
      pure (newError ("wrong number of arguments. got=" ++ toString args.length ++
        ", want=1"))
    else do
      let t ← typeOrPanic (args.getD 0 .nilO)
      if t ≠ ARRAY_OBJ then
        pure (newError ("argument to `tail` must be ARRAY, got " ++ t))
      else
        match args.getD 0 .nilO with
        | .ArrayO elements =>
          if elements.length > 0 then pure (.ArrayO elements.tail) else pure NULL
        | _ => .error .typeAssertionFailed
  | "push" =>
    if args.length ≠ 2 then
      pure (newError ("wrong number of arguments. got=" ++ toString args.length ++
        ", want=2"))
    else do
      let t ← typeOrPanic (args.getD 0 .nilO)
      if t ≠ ARRAY_OBJ then
        pure (newError ("argument to `push` must be ARRAY, got " ++ t))
      else
        match args.getD 0 .nilO with
        | .ArrayO elements => pure (.ArrayO (elements ++ [args.getD 1 .nilO]))
        | _ => .error .typeAssertionFailed
  | _ => .error .typeAssertionFailed

/-- evalIdentifier (part_000:398-408). -/
def evalIdentifier (name : String) (envId : Nat) (st : St) : Object :=
  match envGet st envId name with
  | some val => val
  | none =>
    match builtins name with
    | some builtin => builtin
    | none => newError ("identifier not found: " ++ name)

/-- extendFunctionEnv (part_000:499-505): a fresh environment enclosing the
function's captured one, binding each parameter to the positional argument.
Go indexes `args[paramIdx]` without an arity check: a missing argument is an
index-out-of-range fault. -/
def bindParams : List String → List Object → St → Nat → Except GoPanic St
  | [], _, st, _ => .ok st
  | param :: restParams, arg :: restArgs, st, envId =>
    bindParams restParams restArgs (envSet st envId param arg) envId
  | _ :: _, [], _, _ => .error .indexOutOfRange

/-- extendFunctionEnv (part_000:499-505): allocate the enclosed environment
and bind the parameters. -/
def extendFunctionEnv (parameters : List String) (args : List Object)
    (fnEnv : Nat) (st : St) : Except GoPanic (Nat × St) := do
  let envId := st.length
  let st' ← bindParams parameters args (st ++ [⟨[], some fnEnv⟩]) envId
  pure (envId, st')

/- ===== The evaluator (src/unnamed/part_000) ===== -/

/-- The outcome of one Go evaluation step: a returned object (possibly nil)
with the updated state, the object list returned by `evalExpressions`, a
run-time panic, or exhausted fuel (no Go counterpart; Go recursion depth is
bounded only by the host stack). -/
inductive Outcome where
  | ok (result : Object) (st : St)
  | okList (objs : List Object) (st : St)
  | panic (p : GoPanic)
  | timeout
  deriving Repr

/-- A pending call into the mutually recursive evaluator functions of
part_000.  The loops of evalProgram, evalBlockStatement, evalExpressions and
evalHashLiteral carry their running variable (`result`, `result`, the
`result` slice, and the `pairs` map respectively) as an accumulator. -/
inductive Req where
  | node (node : Node) (envId : Nat)
  | program (statements : List Stmt) (envId : Nat) (result : Object)
  | block (statements : List Stmt) (envId : Nat) (result : Object)
  | ifExpr (condition : Expr) (consequence : List Stmt)
      (alternative : Option (List Stmt)) (envId : Nat)
  | exprs (exps : List Expr) (envId : Nat) (acc : List Object)
  | hash (pairs : List (Expr × Expr)) (envId : Nat)
      (acc : List (HashKey × Object × Object))
  | apply (fn : Object) (args : List Object)

/-- The evaluator (part_000): all the mutually recursive functions as one
structurally fuel-recursive function, so that the kernel can evaluate it.
Each branch mirrors the corresponding Go function; see the named wrappers
`Eval`, `evalProgram`, `evalBlockStatement`, `evalIfExpression`,
`evalExpressions`, `evalHashLiteral` and `applyFunction` below.
`evalExpressions` is the only branch producing `.okList`; the impossible
cross-matches default to `.timeout`. -/
def evalStep : Nat → Req → St → Outcome
  | 0, _, _ => .timeout
  | fuel + 1, req, st =>
    match req with
    -- Eval (part_000:27-181)
    | .node node envId =>
      match node with
      | .prog statements => evalStep fuel (.program statements envId .nilO) st
      | .stmt (.ExpressionStatement e) => evalStep fuel (.node (.expr e) envId) st
      | .stmt (.BlockStatement statements) =>
        evalStep fuel (.block statements envId .nilO) st
      | .stmt (.ReturnStatement e) =>
        match evalStep fuel (.node (.expr e) envId) st with
        | .ok val st' =>
          if isError val then .ok val st' else .ok (.ReturnValueO val) st'
        | out => out
      | .stmt (.VarStatement name e) =>
        match evalStep fuel (.node (.expr e) envId) st with
        | .ok val st' =>
          if isError val then .ok val st'
          else .ok .nilO (envSet st' envId name val)
        | out => out
      | .expr (.IntegerLiteral value) => .ok (.IntegerO value) st
      | .expr (.Boolean value) => .ok (nativeBoolToBooleanObject value) st
      | .expr (.StringLiteral value) => .ok (.StringO value) st
      | .expr (.Identifier name) => .ok (evalIdentifier name envId st) st
      | .expr (.PrefixExpression operator r) =>
        match evalStep fuel (.node (.expr r) envId) st with
        | .ok right st' =>
          if isError right then .ok right st'
          else
            match evalPrefixExpression operator right with
            | .ok o => .ok o st'
            | .error p => .panic p
        | out => out
      | .expr (.InfixExpression l operator r) =>
        match evalStep fuel (.node (.expr l) envId) st with
        | .ok left st₁ =>
          if isError left then .ok left st₁
          else
            match evalStep fuel (.node (.expr r) envId) st₁ with
            | .ok right st₂ =>
              if isError right then .ok right st₂
              else
                match evalInfixExpression operator left right with
                | .ok o => .ok o st₂
                | .error p => .panic p
            | out => out
        | out => out
      | .expr (.IfExpression condition consequence alternative) =>
        evalStep fuel (.ifExpr condition consequence alternative envId) st
      | .expr (.CallExpression f arguments) =>
        match evalStep fuel (.node (.expr f) envId) st with
        | .ok function st₁ =>
          if isError function then .ok function st₁
          else
            match evalStep fuel (.exprs arguments envId []) st₁ with
            | .okList args st₂ =>
              if args.length == 1 && isError (args.getD 0 .nilO) then
                .ok (args.getD 0 .nilO) st₂
              else evalStep fuel (.apply function args) st₂
            | .panic p => .panic p
            | _ => .timeout
        | out => out
      | .expr (.IndexExpression l i) =>
        match evalStep fuel (.node (.expr l) envId) st with
        | .ok left st₁ =>
          if isError left then .ok left st₁
          else
            match evalStep fuel (.node (.expr i) envId) st₁ with
            | .ok index st₂ =>
              if isError index then .ok index st₂
              else
                match evalIndexExpression left index with
                | .ok o => .ok o st₂
                | .error p => .panic p
            | out => out
        | out => out
      | .expr (.FunctionLiteral parameters body) =>
        .ok (.FunctionO parameters body envId) st
      | .expr (.ArrayLiteral elements) =>
        match evalStep fuel (.exprs elements envId []) st with
        | .okList objs st' =>
          if objs.length == 1 && isError (objs.getD 0 .nilO) then
            .ok (objs.getD 0 .nilO) st'
          else .ok (.ArrayO objs) st'
        | .panic p => .panic p
        | _ => .timeout
      | .expr (.HashLiteral pairs) => evalStep fuel (.hash pairs envId []) st
    -- evalProgram (part_000:185-205)
    | .program statements envId result =>
      match statements with
      | [] => .ok result st
      | stmt :: rest =>
        match evalStep fuel (.node (.stmt stmt) envId) st with
        | .ok result st' =>
          match result with
          | .ReturnValueO v => .ok v st'
          | .ErrorO m => .ok (.ErrorO m) st'
          | _ => evalStep fuel (.program rest envId result) st'
        | out => out
    -- evalBlockStatement (part_000:210-227)
    | .block statements envId result =>
      match statements with
      | [] => .ok result st
      | stmt :: rest =>
        match evalStep fuel (.node (.stmt stmt) envId) st with
        | .ok result st' =>
          match result with
          | .ReturnValueO v => .ok (.ReturnValueO v) st'
          | .ErrorO m => .ok (.ErrorO m) st'
          | _ => evalStep fuel (.block rest envId result) st'
        | out => out
    -- evalIfExpression (part_000:381-393)
    | .ifExpr condition consequence alternative envId =>
      match evalStep fuel (.node (.expr condition) envId) st with
      | .ok cond st' =>
        if isError cond then .ok cond st'
        else if isTruthy cond then
          evalStep fuel (.node (.stmt (.BlockStatement consequence)) envId) st'
        else
          match alternative with
          | some alt => evalStep fuel (.node (.stmt (.BlockStatement alt)) envId) st'
          | none => .ok NULL st'
      | out => out
    -- evalExpressions (part_000:411-421)
    | .exprs exps envId acc =>
      match exps with
      | [] => .okList acc st
      | e :: rest =>
        match evalStep fuel (.node (.expr e) envId) st with
        | .ok evaluated st' =>
          if isError evaluated then .okList [evaluated] st'
          else evalStep fuel (.exprs rest envId (acc ++ [evaluated])) st'
        | out => out
    -- evalHashLiteral (part_000:459-479)
    | .hash pairs envId acc =>
      match pairs with
      | [] => .ok (.HashO acc) st
      | (keyNode, valueNode) :: rest =>
        match evalStep fuel (.node (.expr keyNode) envId) st with
        | .ok key st₁ =>
          if isError key then .ok key st₁
          else
            match key.HashKeyOf with
            | none =>
              match typeOrPanic key with
              | .ok t => .ok (newError ("unusable as hash key: " ++ t)) st₁
              | .error p => .panic p
            | some hashed =>
              match evalStep fuel (.node (.expr valueNode) envId) st₁ with
              | .ok value st₂ =>
                if isError value then .ok value st₂
                else
                  evalStep fuel (.hash rest envId (hashPairsSet acc hashed key value)) st₂
              | out => out
        | out => out
    -- applyFunction (part_000:484-495); the default branch calls fn.Type(),
    -- which faults on a nil callee
    | .apply fn args =>
      match fn with
      | .FunctionO parameters body fnEnv =>
        match extendFunctionEnv parameters args fnEnv st with
        | .error p => .panic p
        | .ok (newEnvId, st') =>
          match evalStep fuel (.node (.stmt (.BlockStatement body)) newEnvId) st' with
          | .ok evaluated st'' => .ok (unwrapReturnValue evaluated) st''
          | out => out
      | .BuiltinO name =>
        match applyBuiltin name args with
        | .ok o => .ok o st
        | .error p => .panic p
      | .nilO => .panic .nilDereference
      | other => .ok (newError ("not a function: " ++ other.TypeOf)) st

/-- Eval (part_000:27-181). -/
def Eval (fuel : Nat) (node : Node) (envId : Nat) (st : St) : Outcome :=
  evalStep fuel (.node node envId) st

/-- evalProgram (part_000:185-205); the last argument is the loop's `result`
variable (Go nil initially). -/
def evalProgram (fuel : Nat) (statements : List Stmt) (envId : Nat) (st : St)
    (result : Object) : Outcome :=
  evalStep fuel (.program statements envId result) st

/-- evalBlockStatement (part_000:210-227). -/
def evalBlockStatement (fuel : Nat) (statements : List Stmt) (envId : Nat)
    (st : St) (result : Object) : Outcome :=
  evalStep fuel (.block statements envId result) st

/-- evalIfExpression (part_000:381-393). -/
def evalIfExpression (fuel : Nat) (condition : Expr) (consequence : List Stmt)
    (alternative : Option (List Stmt)) (envId : Nat) (st : St) : Outcome :=
  evalStep fuel (.ifExpr condition consequence alternative envId) st

/-- evalExpressions (part_000:411-421). -/
def evalExpressions (fuel : Nat) (exps : List Expr) (envId : Nat) (st : St) : Outcome :=
  evalStep fuel (.exprs exps envId []) st

/-- evalHashLiteral (part_000:459-479). -/
def evalHashLiteral (fuel : Nat) (pairs : List (Expr × Expr)) (envId : Nat)
    (st : St) : Outcome :=
  evalStep fuel (.hash pairs envId []) st

/-- applyFunction (part_000:484-495). -/
def applyFunction (fuel : Nat) (fn : Object) (args : List Object) (st : St) : Outcome :=
  evalStep fuel (.apply fn args) st

/-- Run a program the way the REPL / file runner does: parse result fed to
Eval with a fresh environment. -/
def runProgram (fuel : Nat) (statements : List Stmt) : Outcome :=
  Eval fuel (.prog statements) 0 newEnvironmentSt

/-- The returned object of an outcome, if evaluation completed. -/
def resultOf : Outcome → Option Object
  | .ok result _ => some result
  | _ => none

/-- The final state of an outcome, if evaluation completed. -/
def stateOf : Outcome → Option St
  | .ok _ st => some st
  | _ => none

/-- The panic of an outcome, if the host faulted. -/
def panicOf : Outcome → Option GoPanic
  | .panic p => some p
  | _ => none

/- ===== The hash-pair storage of a parsed hash literal (C7) =====

parseHashLiteral (src/parser/parser.go:742-762) creates
`hash.Pairs = make(map[ast.Expression]ast.Expression)` and executes
`hash.Pairs[key] = value` once per `key : value` clause, in source order.
Every `key` is a freshly allocated expression node, and Go map keys of
interface type compare by dynamic (pointer) identity, so no insertion ever
replaces another: each clause lands in its own entry, duplicates included.
A Go map value carries no ordering — two maps holding the same entries are
the same map regardless of insertion order, and `range` may present the
entries in any order.  The map value built from the parsed pair list is
therefore exactly the multiset of its entries. -/

/-- The `map[ast.Expression]ast.Expression` value that parseHashLiteral
builds from the key/value clauses (`pairs`, in source order). -/
def parseHashLiteralStorage (pairs : List (Expr × Expr)) : Multiset (Expr × Expr) :=
  (pairs : Multiset (Expr × Expr))

/- ===== Cleanliness invariant (C1) =====

`cleanObj` says that no `Error` value occurs anywhere inside the object
(inside a ReturnValue wrapper, an array element, or a hash pair) and that
every stored hash key object is of a Hashable type (Integer, Boolean or
String) — in particular hash keys are never ReturnValue or Error values.
`ReturnValue` wrappers themselves are allowed anywhere: the code does let
them escape into containers (see the C1 counterexample). -/

/-- Whether the object is one of the Hashable types. -/
def hashableShape : Object → Bool
  | .IntegerO _ => true
  | .BooleanO _ => true
  | .StringO _ => true
  | _ => false

/-- No Error values inside; hash keys are Hashable objects. -/
def cleanObj : Object → Bool
  | .ErrorO _ => false
  | .ReturnValueO v => cleanObj v
  | .ArrayO elements => goList elements
  | .HashO pairs => goPairs pairs
  | _ => true
where
  goList : List Object → Bool
    | [] => true
    | o :: rest => cleanObj o && goList rest
  goPairs : List (HashKey × Object × Object) → Bool
    | [] => true
    | (_, k, v) :: rest =>
      hashableShape k && (cleanObj k && (cleanObj v && goPairs rest))

/-- Every binding of an environment store is clean. -/
def cleanStore : List (String × Object) → Bool
  | [] => true
  | (_, v) :: rest => cleanObj v && cleanStore rest

/-- Every environment in the state holds only clean bindings. -/
def cleanSt (st : St) : Bool :=
  st.all fun env => cleanStore env.store

/-- An evaluation result is either a (possibly Error) propagation value with
nothing dirty inside, i.e. a top-level Error, or a clean object. -/
def resOk (o : Object) : Bool :=
  match o with
  | .ErrorO _ => true
  | _ => cleanObj o

/-- What the cleanliness invariant guarantees about one outcome. -/
def outcomeOk : Outcome → Prop
  | .ok result st' => resOk result = true ∧ cleanSt st' = true
  | .okList objs st' =>
    (objs.all cleanObj = true ∨ ∃ m, objs = [Object.ErrorO m]) ∧ cleanSt st' = true
  | .panic _ => True
  | .timeout => True

/-- The precondition each pending request carries: the accumulators and the
already-evaluated callee/arguments must themselves be clean. -/
def reqOk : Req → Prop
  | .node _ _ => True
  | .program _ _ result => cleanObj result = true
  | .block _ _ result => cleanObj result = true
  | .ifExpr _ _ _ _ => True
  | .exprs _ _ acc => acc.all cleanObj = true
  | .hash _ _ acc => cleanObj.goPairs acc = true
  | .apply fn args => cleanObj fn = true ∧ args.all cleanObj = true

/- ===== FNV-1a collision witness (C10) =====

Two distinct 13-character ASCII strings with the same 64-bit FNV-1a hash
(found by a birthday search over the hash function); `String.HashKey`
(part_003:109-113) therefore maps the two String objects to the same
HashKey. -/

def fnvCollisionA : String := "eVIGDHINZJdTI"

def fnvCollisionB : String := "aCDJOfHNcSTUE"

/- ===================================================================== -/
/- ================= Lemmas for the cleanliness invariant ============== -/
/- ===================================================================== -/

theorem goList_eq_all : ∀ es : List Object, cleanObj.goList es = es.all cleanObj := by
  intro es
  induction es with
  | nil => rfl
  | cons o rest ih => simp [cleanObj.goList, ih]

theorem resOk_of_cleanObj {o : Object} (h : cleanObj o = true) : resOk o = true := by
  cases o <;> simp_all [resOk]

theorem cleanObj_of_resOk {o : Object} (h₁ : resOk o = true) (h₂ : isError o = false) :
    cleanObj o = true := by
  cases o <;> simp_all [resOk, isError]

theorem resOk_error {m : String} : resOk (.ErrorO m) = true := rfl

theorem cleanObj_nil : cleanObj .nilO = true := rfl

theorem resOk_nativeBool {b : Bool} : resOk (nativeBoolToBooleanObject b) = true := by
  cases b <;> rfl

theorem cleanObj_nativeBool {b : Bool} : cleanObj (nativeBoolToBooleanObject b) = true := by
  cases b <;> rfl

theorem storeGet_clean : ∀ {s : List (String × Object)} {n : String} {v : Object},
    cleanStore s = true → storeGet s n = some v → cleanObj v = true := by
  intro s
  induction s with
  | nil => intro n v _ h; exact Option.noConfusion h
  | cons p rest ih =>
    intro n v hc hg
    obtain ⟨k, w⟩ := p
    simp only [cleanStore, Bool.and_eq_true] at hc
    simp only [storeGet] at hg
    by_cases hk : k = n
    · simp [hk] at hg; exact hg ▸ hc.1
    · simp [hk] at hg; exact ih hc.2 hg

theorem storeSet_clean : ∀ {s : List (String × Object)} {n : String} {v : Object},
    cleanStore s = true → cleanObj v = true → cleanStore (storeSet s n v) = true := by
  intro s
  induction s with
  | nil => intro n v _ hv; simp [storeSet, cleanStore, hv]
  | cons p rest ih =>
    intro n v hc hv
    obtain ⟨k, w⟩ := p
    simp only [cleanStore, Bool.and_eq_true] at hc
    simp only [storeSet]
    by_cases hk : k = n
    · simp [hk, cleanStore, hv, hc.2]
    · simp [hk, cleanStore, hc.1, ih hc.2 hv]

theorem cleanSt_getD {st : St} {i : Nat} (h : cleanSt st = true) :
    cleanStore ((st.getD i ⟨[], none⟩).store) = true := by
  induction st generalizing i with
  | nil => simp [List.getD, cleanStore]
  | cons env rest ih =>
    simp only [cleanSt, List.all_cons, Bool.and_eq_true] at h
    cases i with
    | zero => simpa using h.1
    | succ j => simpa using ih (by simpa [cleanSt] using h.2)

theorem envGetLoop_clean : ∀ (fuel : Nat) {st : St} {i : Nat} {n : String} {v : Object},
    cleanSt st = true → envGetLoop fuel st i n = some v → cleanObj v = true := by
  intro fuel
  induction fuel with
  | zero => intro st i n v _ h; exact Option.noConfusion h
  | succ k ih =>
    intro st i n v hst h
    simp only [envGetLoop] at h
    cases hg : storeGet (st.getD i ⟨[], none⟩).store n with
    | some w =>
      rw [hg] at h
      cases h
      exact storeGet_clean (cleanSt_getD hst) hg
    | none =>
      rw [hg] at h
      cases ho : (st.getD i ⟨[], none⟩).outer with
      | some oid => rw [ho] at h; exact ih hst h
      | none => rw [ho] at h; exact Option.noConfusion h

theorem envGet_clean {st : St} {i : Nat} {n : String} {v : Object}
    (hst : cleanSt st = true) (h : envGet st i n = some v) : cleanObj v = true :=
  envGetLoop_clean _ hst h

theorem envSet_clean : ∀ {st : St} {i : Nat} {n : String} {v : Object},
    cleanSt st = true → cleanObj v = true → cleanSt (envSet st i n v) = true := by
  intro st
  induction st with
  | nil => intro i n v hst _; cases i <;> exact hst
  | cons e rest ih =>
    intro i n v hst hv
    simp only [cleanSt, List.all_cons, Bool.and_eq_true] at hst
    cases i with
    | zero =>
      simp only [envSet, cleanSt, List.all_cons, Bool.and_eq_true]
      exact ⟨storeSet_clean hst.1 hv, hst.2⟩
    | succ j =>
      simp only [envSet, cleanSt, List.all_cons, Bool.and_eq_true]
      refine ⟨hst.1, ?_⟩
      have := ih (i := j) (n := n) (v := v) (by simpa [cleanSt] using hst.2) hv
      simpa [cleanSt] using this

theorem cleanSt_append {st : St} {env : Environment}
    (hst : cleanSt st = true) (henv : cleanStore env.store = true) :
    cleanSt (st ++ [env]) = true := by
  simp only [cleanSt, List.all_append, List.all_cons, List.all_nil, Bool.and_eq_true,
    Bool.and_true]
  exact ⟨by simpa [cleanSt] using hst, henv⟩

theorem bindParams_clean : ∀ {ps : List String} {args : List Object} {st st' : St} {i : Nat},
    cleanSt st = true → args.all cleanObj = true →
    bindParams ps args st i = .ok st' → cleanSt st' = true := by
  intro ps
  induction ps with
  | nil => intro args st st' i hst _ h; cases h; exact hst
  | cons p rest ih =>
    intro args st st' i hst hargs h
    cases args with
    | nil => exact Except.noConfusion h
    | cons a as =>
      simp only [List.all_cons, Bool.and_eq_true] at hargs
      simp only [bindParams] at h
      exact ih (envSet_clean hst hargs.1) hargs.2 h

theorem extendFunctionEnv_clean {ps : List String} {args : List Object}
    {fnEnv : Nat} {st st' : St} {i : Nat}
    (hst : cleanSt st = true) (hargs : args.all cleanObj = true)
    (h : extendFunctionEnv ps args fnEnv st = .ok (i, st')) : cleanSt st' = true := by
  simp only [extendFunctionEnv, Except.bind, bind] at h
  cases hb : bindParams ps args (st ++ [⟨[], some fnEnv⟩]) st.length with
  | error p => rw [hb] at h; exact Except.noConfusion h
  | ok st₂ =>
    rw [hb] at h
    simp only [pure, Except.pure, Except.ok.injEq, Prod.mk.injEq] at h
    have hemp : cleanStore (Environment.mk [] (some fnEnv)).store = true := rfl
    have := bindParams_clean (cleanSt_append hst hemp) hargs hb
    obtain ⟨-, h2⟩ := h
    exact h2 ▸ this

theorem evalIdentifier_resOk {n : String} {i : Nat} {st : St}
    (hst : cleanSt st = true) : resOk (evalIdentifier n i st) = true := by
  unfold evalIdentifier
  cases hg : envGet st i n with
  | some v => exact resOk_of_cleanObj (envGet_clean hst hg)
  | none =>
    unfold builtins
    split_ifs <;> rfl

theorem bind_error {α β : Type} {p : GoPanic} {f : α → Except GoPanic β} :
    (Except.error p >>= f) = (Except.error p : Except GoPanic β) := rfl

theorem bind_ok {α β : Type} {a : α} {f : α → Except GoPanic β} :
    (Except.ok a >>= f) = f a := rfl

theorem evalBang_resOk {r : Object} : resOk (evalBangOperatorExpression r) = true := by
  cases r <;> first | rfl | (rename_i b; cases b <;> rfl)

theorem evalPrefixExpression_resOk {op : String} {r o : Object}
    (h : evalPrefixExpression op r = .ok o) : resOk o = true := by
  unfold evalPrefixExpression at h
  split_ifs at h with h₁ h₂
  · cases h; exact evalBang_resOk
  · unfold evalMinusPrefixOperatorExpression at h
    cases hr : typeOrPanic r with
    | error p => rw [hr, bind_error] at h; exact Except.noConfusion h
    | ok t =>
      rw [hr, bind_ok] at h
      split_ifs at h with h₃
      · cases h; rfl
      · cases r <;> dsimp only at h <;>
          first
            | (injection h with h; exact h ▸ rfl)
            | exact Except.noConfusion h
  · cases ht : typeOrPanic r with
    | error p => rw [ht, bind_error] at h; exact Except.noConfusion h
    | ok t => rw [ht, bind_ok] at h; injection h with h; exact h ▸ rfl

theorem evalIntegerInfix_resOk {op : String} {l r o : Object}
    (h : evalIntegerInfixExpression op l r = .ok o) : resOk o = true := by
  unfold evalIntegerInfixExpression at h
  cases l <;> cases r <;> dsimp only at h <;>
    try exact Except.noConfusion h
  split_ifs at h <;>
    first
      | (injection h with h; exact h ▸ rfl)
      | (injection h with h; exact h ▸ resOk_nativeBool)
      | exact Except.noConfusion h

theorem evalStringInfix_resOk {op : String} {l r o : Object}
    (h : evalStringInfixExpression op l r = .ok o) : resOk o = true := by
  unfold evalStringInfixExpression at h
  cases l <;> cases r <;> dsimp only at h <;>
    try exact Except.noConfusion h
  split_ifs at h <;>
    first
      | (injection h with h; exact h ▸ rfl)
      | (injection h with h; exact h ▸ resOk_nativeBool)
      | exact Except.noConfusion h

theorem evalBooleanInfix_resOk {op : String} {l r o : Object}
    (h : evalBooleanInfixExpression op l r = .ok o) : resOk o = true := by
  unfold evalBooleanInfixExpression at h
  cases l <;> cases r <;> dsimp only at h <;>
    try exact Except.noConfusion h
  split_ifs at h <;>
    first
      | (injection h with h; exact h ▸ rfl)
      | (injection h with h; exact h ▸ resOk_nativeBool)
      | exact Except.noConfusion h

theorem evalInfixExpression_resOk {op : String} {l r o : Object}
    (h : evalInfixExpression op l r = .ok o) : resOk o = true := by
  unfold evalInfixExpression at h
  cases hl : typeOrPanic l with
  | error p => rw [hl, bind_error] at h; exact Except.noConfusion h
  | ok lt =>
    rw [hl, bind_ok] at h
    cases hr : typeOrPanic r with
    | error p => rw [hr, bind_error] at h; exact Except.noConfusion h
    | ok rt =>
      rw [hr, bind_ok] at h
      split_ifs at h with h₁ h₂ h₃ h₄
      · exact evalIntegerInfix_resOk h
      · exact evalBooleanInfix_resOk h
      · injection h with h; exact h ▸ rfl
      · exact evalStringInfix_resOk h
      · injection h with h; exact h ▸ rfl

theorem goList_getD {es : List Object} {i : Nat}
    (h : cleanObj.goList es = true) : cleanObj (es.getD i NULL) = true := by
  induction es generalizing i with
  | nil => simp [List.getD, NULL, cleanObj]
  | cons o rest ih =>
    simp only [cleanObj.goList, Bool.and_eq_true] at h
    cases i with
    | zero => simpa [List.getD] using h.1
    | succ j => simpa [List.getD] using ih h.2

theorem hashPairsGet_clean : ∀ {ps : List (HashKey × Object × Object)}
    {k : HashKey} {pair : Object × Object},
    cleanObj.goPairs ps = true → hashPairsGet ps k = some pair →
    cleanObj pair.2 = true := by
  intro ps
  induction ps with
  | nil => intro k pair _ h; exact Option.noConfusion h
  | cons entry rest ih =>
    intro k pair hc hg
    obtain ⟨hk, ko, vo⟩ := entry
    simp only [cleanObj.goPairs, Bool.and_eq_true] at hc
    simp only [hashPairsGet] at hg
    by_cases hkk : hk = k
    · simp [hkk] at hg; cases hg; exact hc.2.2.1
    · simp [hkk] at hg; exact ih hc.2.2.2 hg

theorem hashKeyOf_shape {o : Object} {hk : HashKey}
    (h : o.HashKeyOf = some hk) : hashableShape o = true := by
  cases o <;> simp_all [Object.HashKeyOf, hashableShape]

theorem evalIndexExpression_resOk {l i o : Object}
    (hl : cleanObj l = true) (h : evalIndexExpression l i = .ok o) :
    resOk o = true := by
  unfold evalIndexExpression at h
  cases htl : typeOrPanic l with
  | error p => rw [htl, bind_error] at h; exact Except.noConfusion h
  | ok lt =>
    rw [htl, bind_ok] at h
    split_ifs at h with h₁ h₂
    · cases hti : typeOrPanic i with
      | error p => rw [hti, bind_error] at h; exact Except.noConfusion h
      | ok it =>
        rw [hti, bind_ok] at h
        split_ifs at h with h₃
        · unfold evalArrayIndexExpression at h
          cases l <;> cases i <;> dsimp only at h <;>
            try exact Except.noConfusion h
          rename_i es idx
          simp only [cleanObj] at hl
          split_ifs at h <;> injection h with h
          · exact h ▸ rfl
          · exact h ▸ resOk_of_cleanObj (goList_getD hl)
        · injection h with h; exact h ▸ rfl
    · unfold evalHashIndexExpression at h
      cases l <;> dsimp only at h <;> try exact Except.noConfusion h
      rename_i ps
      · simp only [cleanObj] at hl
        cases hko : i.HashKeyOf with
        | none =>
          rw [hko] at h
          dsimp only at h
          cases hti : typeOrPanic i with
          | error p => rw [hti, bind_error] at h; exact Except.noConfusion h
          | ok it => rw [hti, bind_ok] at h; injection h with h; exact h ▸ rfl
        | some key =>
          rw [hko] at h
          dsimp only at h
          cases hpg : hashPairsGet ps key with
          | none => rw [hpg] at h; injection h with h; exact h ▸ rfl
          | some pair =>
            rw [hpg] at h
            injection h with h
            exact h ▸ resOk_of_cleanObj (hashPairsGet_clean hl hpg)
    · injection h with h; exact h ▸ rfl

theorem hashPairsSet_clean {ps : List (HashKey × Object × Object)} {hk : HashKey}
    {k v : Object} (hps : cleanObj.goPairs ps = true)
    (hsk : hashableShape k = true) (hck : cleanObj k = true) (hcv : cleanObj v = true) :
    cleanObj.goPairs (hashPairsSet ps hk k v) = true := by
  induction ps with
  | nil =>
    simp only [hashPairsSet, cleanObj.goPairs, Bool.and_eq_true]
    exact ⟨hsk, hck, hcv, trivial⟩
  | cons entry rest ih =>
    obtain ⟨k', ko, vo⟩ := entry
    simp only [cleanObj.goPairs, Bool.and_eq_true] at hps
    simp only [hashPairsSet]
    by_cases hkk : k' = hk
    · simp only [if_pos hkk, cleanObj.goPairs, Bool.and_eq_true]
      exact ⟨hsk, hck, hcv, hps.2.2.2⟩
    · simp only [if_neg hkk, cleanObj.goPairs, Bool.and_eq_true]
      exact ⟨hps.1, hps.2.1, hps.2.2.1, ih hps.2.2.2⟩

theorem unwrapReturnValue_resOk {o : Object} (h : resOk o = true) :
    resOk (unwrapReturnValue o) = true := by
  cases o <;>
    first
      | exact h
      | (rename_i v
         refine resOk_of_cleanObj ?_
         simpa [resOk, cleanObj] using h)

theorem all_getD_clean {args : List Object} {i : Nat}
    (h : args.all cleanObj = true) : cleanObj (args.getD i .nilO) = true := by
  induction args generalizing i with
  | nil => simp [List.getD, cleanObj]
  | cons a rest ih =>
    simp only [List.all_cons, Bool.and_eq_true] at h
    cases i with
    | zero => simpa [List.getD] using h.1
    | succ j => simpa [List.getD] using ih h.2

theorem goList_of_all {es : List Object} (h : es.all cleanObj = true) :
    cleanObj.goList es = true := by rw [goList_eq_all]; exact h

theorem goList_getLastD {es : List Object} (h : cleanObj.goList es = true) :
    cleanObj (es.getLastD NULL) = true := by
  induction es with
  | nil => rfl
  | cons o rest ih =>
    simp only [cleanObj.goList, Bool.and_eq_true] at h
    cases rest with
    | nil => simpa [List.getLastD] using h.1
    | cons b bs => simpa [List.getLastD] using ih h.2

theorem goList_tail {es : List Object} (h : cleanObj.goList es = true) :
    cleanObj.goList es.tail = true := by
  cases es with
  | nil => rfl
  | cons o rest => simp only [cleanObj.goList, Bool.and_eq_true] at h; simpa using h.2

theorem goList_append {es : List Object} {o : Object}
    (h : cleanObj.goList es = true) (ho : cleanObj o = true) :
    cleanObj.goList (es ++ [o]) = true := by
  rw [goList_eq_all] at h ⊢
  simp_all

theorem applyBuiltin_resOk {name : String} {args : List Object} {o : Object}
    (hargs : args.all cleanObj = true) (h : applyBuiltin name args = .ok o) :
    resOk o = true := by
  have hc := all_getD_clean (i := 0) hargs
  have hc1 := all_getD_clean (i := 1) hargs
  unfold applyBuiltin at h
  split at h
  -- print
  · split_ifs at h
    injection h with h; exact h ▸ rfl
  -- len
  · split_ifs at h
    · injection h with h; exact h ▸ rfl
    · cases hv : args.getD 0 .nilO <;> rw [hv] at h <;> dsimp only at h <;>
        (try simp only [typeOrPanic, bind_ok, bind_error] at h) <;>
        first
          | (injection h with h; exact h ▸ rfl)
          | exact Except.noConfusion h
  -- first
  · split_ifs at h
    · injection h with h; exact h ▸ rfl
    · cases ht : typeOrPanic (args.getD 0 .nilO) with
      | error p => rw [ht, bind_error] at h; exact Except.noConfusion h
      | ok t =>
        rw [ht, bind_ok] at h
        split_ifs at h
        · injection h with h; exact h ▸ rfl
        · cases hv : args.getD 0 .nilO <;> rw [hv] at h <;> dsimp only at h <;>
            try exact Except.noConfusion h
          rename_i es
          rw [hv] at hc
          simp only [cleanObj] at hc
          cases es with
          | nil => injection h with h; exact h ▸ rfl
          | cons e rest =>
            injection h with h
            simp only [cleanObj.goList, Bool.and_eq_true] at hc
            exact h ▸ resOk_of_cleanObj hc.1
  -- last
  · split_ifs at h
    · injection h with h; exact h ▸ rfl
    · cases ht : typeOrPanic (args.getD 0 .nilO) with
      | error p => rw [ht, bind_error] at h; exact Except.noConfusion h
      | ok t =>
        rw [ht, bind_ok] at h
        split_ifs at h
        · injection h with h; exact h ▸ rfl
        · cases hv : args.getD 0 .nilO <;> rw [hv] at h <;> dsimp only at h <;>
            try exact Except.noConfusion h
          rename_i es
          rw [hv] at hc
          simp only [cleanObj] at hc
          split_ifs at h <;> injection h with h
          · exact h ▸ resOk_of_cleanObj (goList_getLastD hc)
          · exact h ▸ rfl
  -- tail
  · split_ifs at h
    · injection h with h; exact h ▸ rfl
    · cases ht : typeOrPanic (args.getD 0 .nilO) with
      | error p => rw [ht, bind_error] at h; exact Except.noConfusion h
      | ok t =>
        rw [ht, bind_ok] at h
        split_ifs at h
        · injection h with h; exact h ▸ rfl
        · cases hv : args.getD 0 .nilO <;> rw [hv] at h <;> dsimp only at h <;>
            try exact Except.noConfusion h
          rename_i es
          rw [hv] at hc
          simp only [cleanObj] at hc
          split_ifs at h <;> injection h with h
          · exact h ▸ resOk_of_cleanObj (goList_tail hc)
          · exact h ▸ rfl
  -- push
  · split_ifs at h
    · injection h with h; exact h ▸ rfl
    · cases ht : typeOrPanic (args.getD 0 .nilO) with
      | error p => rw [ht, bind_error] at h; exact Except.noConfusion h
      | ok t =>
        rw [ht, bind_ok] at h
        split_ifs at h
        · injection h with h; exact h ▸ rfl
        · cases hv : args.getD 0 .nilO <;> rw [hv] at h <;> dsimp only at h <;>
            try exact Except.noConfusion h
          rename_i es
          rw [hv] at hc
          simp only [cleanObj] at hc
          injection h with h
          exact h ▸ resOk_of_cleanObj (goList_append hc hc1)
  -- unreachable default
  · exact Except.noConfusion h

theorem isError_eq_true {o : Object} (h : isError o = true) :
    ∃ m, o = .ErrorO m := by
  cases o <;> simp_all [isError]

theorem getD_resOk {args : List Object}
    (h : args.all cleanObj = true ∨ ∃ m, args = [Object.ErrorO m]) :
    resOk (args.getD 0 .nilO) = true := by
  rcases h with h | ⟨m, rfl⟩
  · exact resOk_of_cleanObj (all_getD_clean h)
  · rfl

/-- The cleanliness invariant, proved by induction on the fuel: starting from
a state whose environments hold only clean bindings, every evaluator request
whose accumulators are clean yields a clean outcome (see `outcomeOk`). -/
theorem evalStep_clean : ∀ (fuel : Nat) (req : Req) (st : St),
    cleanSt st = true → reqOk req → outcomeOk (evalStep fuel req st) := by
  intro fuel
  induction fuel with
  | zero => intro req st _ _; simp [evalStep, outcomeOk]
  | succ n ih =>
    intro req st hst hreq
    cases req with
    | node node envId =>
      cases node with
      | prog statements =>
        simp only [evalStep]
        exact ih (.program statements envId .nilO) st hst cleanObj_nil
      | stmt s =>
        cases s with
        | ExpressionStatement e =>
          simp only [evalStep]
          exact ih (.node (.expr e) envId) st hst trivial
        | BlockStatement statements =>
          simp only [evalStep]
          exact ih (.block statements envId .nilO) st hst cleanObj_nil
        | ReturnStatement e =>
          simp only [evalStep]
          cases he : evalStep n (.node (.expr e) envId) st with
          | ok val st' =>
            have hE := ih (.node (.expr e) envId) st hst trivial
            rw [he] at hE
            obtain ⟨hval, hst'⟩ := hE
            try dsimp only
            cases he2 : isError val
            · try dsimp only
              have hclean : cleanObj val = true := cleanObj_of_resOk hval he2
              refine ⟨?_, hst'⟩
              simpa [resOk, cleanObj] using hclean
            · try dsimp only
              exact ⟨hval, hst'⟩
          | okList objs st' =>
            have hE := ih (.node (.expr e) envId) st hst trivial
            rw [he] at hE
            exact hE
          | panic p => trivial
          | timeout => trivial
        | VarStatement name e =>
          simp only [evalStep]
          cases he : evalStep n (.node (.expr e) envId) st with
          | ok val st' =>
            have hE := ih (.node (.expr e) envId) st hst trivial
            rw [he] at hE
            obtain ⟨hval, hst'⟩ := hE
            try dsimp only
            cases he2 : isError val
            · try dsimp only
              exact ⟨cleanObj_nil, envSet_clean hst' (cleanObj_of_resOk hval he2)⟩
            · try dsimp only
              exact ⟨hval, hst'⟩
          | okList objs st' =>
            have hE := ih (.node (.expr e) envId) st hst trivial
            rw [he] at hE
            exact hE
          | panic p => trivial
          | timeout => trivial
      | expr e =>
        cases e with
        | IntegerLiteral value =>
          exact ⟨rfl, hst⟩
        | Boolean value =>
          exact ⟨resOk_nativeBool, hst⟩
        | StringLiteral value =>
          exact ⟨rfl, hst⟩
        | Identifier name =>
          exact ⟨evalIdentifier_resOk hst, hst⟩
        | FunctionLiteral parameters body =>
          exact ⟨rfl, hst⟩
        | PrefixExpression operator r =>
          simp only [evalStep]
          cases he : evalStep n (.node (.expr r) envId) st with
          | ok right st' =>
            have hE := ih (.node (.expr r) envId) st hst trivial
            rw [he] at hE
            obtain ⟨hval, hst'⟩ := hE
            try dsimp only
            cases he2 : isError right
            · try dsimp only
              cases hp : evalPrefixExpression operator right with
              | ok o => exact ⟨evalPrefixExpression_resOk hp, hst'⟩
              | error p => trivial
            · try dsimp only
              exact ⟨hval, hst'⟩
          | okList objs st' =>
            have hE := ih (.node (.expr r) envId) st hst trivial
            rw [he] at hE
            exact hE
          | panic p => trivial
          | timeout => trivial
        | InfixExpression l operator r =>
          simp only [evalStep]
          cases hl : evalStep n (.node (.expr l) envId) st with
          | ok left st₁ =>
            have hL := ih (.node (.expr l) envId) st hst trivial
            rw [hl] at hL
            obtain ⟨hlval, hst₁⟩ := hL
            try dsimp only
            cases hle : isError left
            · try dsimp only
              cases hr : evalStep n (.node (.expr r) envId) st₁ with
              | ok right st₂ =>
                have hR := ih (.node (.expr r) envId) st₁ hst₁ trivial
                rw [hr] at hR
                obtain ⟨hrval, hst₂⟩ := hR
                try dsimp only
                cases hre : isError right
                · try dsimp only
                  cases hi : evalInfixExpression operator left right with
                  | ok o => exact ⟨evalInfixExpression_resOk hi, hst₂⟩
                  | error p => trivial
                · try dsimp only
                  exact ⟨hrval, hst₂⟩
              | okList objs st₂ =>
                have hR := ih (.node (.expr r) envId) st₁ hst₁ trivial
                rw [hr] at hR
                exact hR
              | panic p => trivial
              | timeout => trivial
            · try dsimp only
              exact ⟨hlval, hst₁⟩
          | okList objs st₁ =>
            have hL := ih (.node (.expr l) envId) st hst trivial
            rw [hl] at hL
            exact hL
          | panic p => trivial
          | timeout => trivial
        | IfExpression condition consequence alternative =>
          simp only [evalStep]
          exact ih (.ifExpr condition consequence alternative envId) st hst trivial
        | CallExpression f arguments =>
          simp only [evalStep]
          cases hf : evalStep n (.node (.expr f) envId) st with
          | ok function st₁ =>
            have hF := ih (.node (.expr f) envId) st hst trivial
            rw [hf] at hF
            obtain ⟨hfval, hst₁⟩ := hF
            try dsimp only
            cases hfe : isError function
            · try dsimp only
              cases ha : evalStep n (.exprs arguments envId []) st₁ with
              | okList args st₂ =>
                have hA := ih (.exprs arguments envId []) st₁ hst₁ rfl
                rw [ha] at hA
                obtain ⟨hargs, hst₂⟩ := hA
                try dsimp only
                cases hg : args.length == 1 && isError (args.getD 0 .nilO)
                · try dsimp only
                  refine ih (.apply function args) st₂ hst₂
                    ⟨cleanObj_of_resOk hfval hfe, ?_⟩
                  rcases hargs with hall | ⟨m, rfl⟩
                  · exact hall
                  · exact absurd hg (by simp [isError])
                · try dsimp only
                  exact ⟨getD_resOk hargs, hst₂⟩
              | ok o st₂ => trivial
              | panic p => trivial
              | timeout => trivial
            · try dsimp only
              exact ⟨hfval, hst₁⟩
          | okList objs st₁ =>
            have hF := ih (.node (.expr f) envId) st hst trivial
            rw [hf] at hF
            exact hF
          | panic p => trivial
          | timeout => trivial
        | IndexExpression l i =>
          simp only [evalStep]
          cases hl : evalStep n (.node (.expr l) envId) st with
          | ok left st₁ =>
            have hL := ih (.node (.expr l) envId) st hst trivial
            rw [hl] at hL
            obtain ⟨hlval, hst₁⟩ := hL
            try dsimp only
            cases hle : isError left
            · try dsimp only
              cases hr : evalStep n (.node (.expr i) envId) st₁ with
              | ok index st₂ =>
                have hR := ih (.node (.expr i) envId) st₁ hst₁ trivial
                rw [hr] at hR
                obtain ⟨hrval, hst₂⟩ := hR
                try dsimp only
                cases hre : isError index
                · try dsimp only
                  cases hix : evalIndexExpression left index with
                  | ok o =>
                    exact ⟨evalIndexExpression_resOk (cleanObj_of_resOk hlval hle) hix,
                      hst₂⟩
                  | error p => trivial
                · try dsimp only
                  exact ⟨hrval, hst₂⟩
              | okList objs st₂ =>
                have hR := ih (.node (.expr i) envId) st₁ hst₁ trivial
                rw [hr] at hR
                exact hR
              | panic p => trivial
              | timeout => trivial
            · try dsimp only
              exact ⟨hlval, hst₁⟩
          | okList objs st₁ =>
            have hL := ih (.node (.expr l) envId) st hst trivial
            rw [hl] at hL
            exact hL
          | panic p => trivial
          | timeout => trivial
        | ArrayLiteral elements =>
          simp only [evalStep]
          cases ha : evalStep n (.exprs elements envId []) st with
          | okList objs st' =>
            have hA := ih (.exprs elements envId []) st hst rfl
            rw [ha] at hA
            obtain ⟨hobjs, hst'⟩ := hA
            try dsimp only
            cases hg : objs.length == 1 && isError (objs.getD 0 .nilO)
            · try dsimp only
              refine ⟨?_, hst'⟩
              rcases hobjs with hall | ⟨m, rfl⟩
              · exact resOk_of_cleanObj (goList_of_all hall)
              · exact absurd hg (by simp [isError])
            · try dsimp only
              exact ⟨getD_resOk hobjs, hst'⟩
          | ok o st' => trivial
          | panic p => trivial
          | timeout => trivial
        | HashLiteral pairs =>
          simp only [evalStep]
          exact ih (.hash pairs envId []) st hst rfl
    | program statements envId result =>
      cases statements with
      | nil => exact ⟨resOk_of_cleanObj hreq, hst⟩
      | cons stmt rest =>
        simp only [evalStep]
        cases he : evalStep n (.node (.stmt stmt) envId) st with
        | ok val st' =>
          have hE := ih (.node (.stmt stmt) envId) st hst trivial
          rw [he] at hE
          obtain ⟨hval, hst'⟩ := hE
          try dsimp only
          cases val <;>
            first
              | exact ⟨rfl, hst'⟩
              | exact ⟨resOk_of_cleanObj hval, hst'⟩
              | exact ih (.program rest envId _) st' hst' hval
        | okList objs st' =>
          have hE := ih (.node (.stmt stmt) envId) st hst trivial
          rw [he] at hE
          exact hE
        | panic p => trivial
        | timeout => trivial
    | block statements envId result =>
      cases statements with
      | nil => exact ⟨resOk_of_cleanObj hreq, hst⟩
      | cons stmt rest =>
        simp only [evalStep]
        cases he : evalStep n (.node (.stmt stmt) envId) st with
        | ok val st' =>
          have hE := ih (.node (.stmt stmt) envId) st hst trivial
          rw [he] at hE
          obtain ⟨hval, hst'⟩ := hE
          try dsimp only
          cases val <;>
            first
              | exact ⟨rfl, hst'⟩
              | exact ⟨hval, hst'⟩
              | exact ih (.block rest envId _) st' hst' hval
        | okList objs st' =>
          have hE := ih (.node (.stmt stmt) envId) st hst trivial
          rw [he] at hE
          exact hE
        | panic p => trivial
        | timeout => trivial
    | ifExpr condition consequence alternative envId =>
      simp only [evalStep]
      cases hc : evalStep n (.node (.expr condition) envId) st with
      | ok cond st' =>
        have hC := ih (.node (.expr condition) envId) st hst trivial
        rw [hc] at hC
        obtain ⟨hcval, hst'⟩ := hC
        try dsimp only
        cases hce : isError cond
        · try dsimp only
          cases ht : isTruthy cond
          · try dsimp only
            cases alternative with
            | some alt =>
              exact ih (.node (.stmt (.BlockStatement alt)) envId) st' hst' trivial
            | none => exact ⟨rfl, hst'⟩
          · try dsimp only
            exact ih (.node (.stmt (.BlockStatement consequence)) envId) st' hst' trivial
        · try dsimp only
          exact ⟨hcval, hst'⟩
      | okList objs st' =>
        have hC := ih (.node (.expr condition) envId) st hst trivial
        rw [hc] at hC
        exact hC
      | panic p => trivial
      | timeout => trivial
    | exprs exps envId acc =>
      cases exps with
      | nil => exact ⟨Or.inl hreq, hst⟩
      | cons e rest =>
        simp only [evalStep]
        cases he : evalStep n (.node (.expr e) envId) st with
        | ok evaluated st' =>
          have hE := ih (.node (.expr e) envId) st hst trivial
          rw [he] at hE
          obtain ⟨hval, hst'⟩ := hE
          try dsimp only
          cases he2 : isError evaluated
          · try dsimp only
            refine ih (.exprs rest envId (acc ++ [evaluated])) st' hst' ?_
            have hclean := cleanObj_of_resOk hval he2
            have hacc : acc.all cleanObj = true := hreq
            show (acc ++ [evaluated]).all cleanObj = true
            rw [List.all_append]
            simp [hacc, hclean]
          · try dsimp only
            obtain ⟨m, rfl⟩ := isError_eq_true he2
            exact ⟨Or.inr ⟨m, rfl⟩, hst'⟩
        | okList objs st' =>
          have hE := ih (.node (.expr e) envId) st hst trivial
          rw [he] at hE
          exact hE
        | panic p => trivial
        | timeout => trivial
    | hash pairs envId acc =>
      cases pairs with
      | nil => exact ⟨hreq, hst⟩
      | cons pair rest =>
        obtain ⟨keyNode, valueNode⟩ := pair
        simp only [evalStep]
        cases hk : evalStep n (.node (.expr keyNode) envId) st with
        | ok key st₁ =>
          have hK := ih (.node (.expr keyNode) envId) st hst trivial
          rw [hk] at hK
          obtain ⟨hkval, hst₁⟩ := hK
          try dsimp only
          cases hke : isError key
          · try dsimp only
            cases hko : key.HashKeyOf with
            | none =>
              try dsimp only
              cases htk : typeOrPanic key with
              | ok t => exact ⟨rfl, hst₁⟩
              | error p => trivial
            | some hashed =>
              try dsimp only
              cases hv : evalStep n (.node (.expr valueNode) envId) st₁ with
              | ok value st₂ =>
                have hV := ih (.node (.expr valueNode) envId) st₁ hst₁ trivial
                rw [hv] at hV
                obtain ⟨hvval, hst₂⟩ := hV
                try dsimp only
                cases hve : isError value
                · try dsimp only
                  refine ih (.hash rest envId _) st₂ hst₂ ?_
                  exact hashPairsSet_clean hreq (hashKeyOf_shape hko)
                    (cleanObj_of_resOk hkval hke) (cleanObj_of_resOk hvval hve)
                · try dsimp only
                  exact ⟨hvval, hst₂⟩
              | okList objs st₂ =>
                have hV := ih (.node (.expr valueNode) envId) st₁ hst₁ trivial
                rw [hv] at hV
                exact hV
              | panic p => trivial
              | timeout => trivial
          · try dsimp only
            exact ⟨hkval, hst₁⟩
        | okList objs st₁ =>
          have hK := ih (.node (.expr keyNode) envId) st hst trivial
          rw [hk] at hK
          exact hK
        | panic p => trivial
        | timeout => trivial
    | apply fn args =>
      obtain ⟨hfn, hargs⟩ := hreq
      cases fn with
      | FunctionO parameters body fnEnv =>
        simp only [evalStep]
        cases hx : extendFunctionEnv parameters args fnEnv st with
        | error p => trivial
        | ok pr =>
          obtain ⟨newEnvId, st'⟩ := pr
          try dsimp only
          have hst' := extendFunctionEnv_clean hst hargs hx
          cases hb : evalStep n (.node (.stmt (.BlockStatement body)) newEnvId) st' with
          | ok evaluated st'' =>
            have hB := ih (.node (.stmt (.BlockStatement body)) newEnvId) st' hst' trivial
            rw [hb] at hB
            obtain ⟨hres, hst''⟩ := hB
            try dsimp only
            exact ⟨unwrapReturnValue_resOk hres, hst''⟩
          | okList objs st'' =>
            have hB := ih (.node (.stmt (.BlockStatement body)) newEnvId) st' hst' trivial
            rw [hb] at hB
            exact hB
          | panic p => trivial
          | timeout => trivial
      | BuiltinO name =>
        simp only [evalStep]
        cases hap : applyBuiltin name args with
        | ok o => exact ⟨applyBuiltin_resOk hargs hap, hst⟩
        | error p => trivial
      | nilO => trivial
      | _ => exact ⟨rfl, hst⟩

/- ===================================================================== -/
/- ========================= Claim theorems ============================ -/
/- ===================================================================== -/

/-- C1 (counterexample): evaluating the program `[if (true) { return 10; }]`
from a fresh environment completes normally, and its final value is an Array
whose single element is a ReturnValue object — `evalExpressions` filters only
Errors, so the wrapped return produced by the if-expression's taken branch
lands inside the array, contradicting the claim that ReturnValue values never
occur inside an Array's elements. -/
theorem C1_returnvalue_escapes_into_array :
    runProgram 100 [.ExpressionStatement (.ArrayLiteral [.IfExpression (.Boolean true)
      [.ReturnStatement (.IntegerLiteral 10)] none])] =
      .ok (.ArrayO [.ReturnValueO (.IntegerO 10)]) newEnvironmentSt := rfl

/-- C1 (amended): for every program evaluated from a fresh environment,
Error values never occur inside an Array's elements, a Hash's pairs, an
environment binding or a ReturnValue wrapper, and every stored hash key is an
Integer, Boolean or String object — never a ReturnValue or Error (this is
`resOk`/`cleanObj`/`cleanSt`).  ReturnValue wrappers, however, are not
confined to the propagation path (see the counterexample). -/
theorem C1_no_errors_inside_values (fuel : Nat) (statements : List Stmt)
    (result : Object) (st' : St)
    (h : runProgram fuel statements = .ok result st') :
    resOk result = true ∧ cleanSt st' = true := by
  have hinv := evalStep_clean fuel (.node (.prog statements) 0) newEnvironmentSt rfl trivial
  have hrun : runProgram fuel statements =
      evalStep fuel (.node (.prog statements) 0) newEnvironmentSt := rfl
  rw [hrun] at h
  rw [h] at hinv
  exact hinv

/-- C1 witness: the amended theorem applied to the counterexample program:
its result — the array holding a ReturnValue — satisfies the invariant, and
the final state is clean. -/
theorem C1_no_errors_inside_values_witness :
    resOk (.ArrayO [.ReturnValueO (.IntegerO 10)]) = true ∧
    cleanSt newEnvironmentSt = true :=
  C1_no_errors_inside_values 100
    [.ExpressionStatement (.ArrayLiteral [.IfExpression (.Boolean true)
      [.ReturnStatement (.IntegerLiteral 10)] none])]
    (.ArrayO [.ReturnValueO (.IntegerO 10)]) newEnvironmentSt rfl

/-- C2 (failing input): on Integer operands `1 / 0` the evaluator executes
the host division `leftValue / rightValue` (part_000:328) with no zero
check, a Go run-time panic that crashes the interpreter — not a runtime
Error value as the claim requires.  Both the helper and a whole program
evaluation fault. -/
theorem C2_division_by_zero_is_host_panic :
    evalIntegerInfixExpression "/" (.IntegerO 1) (.IntegerO 0) =
      .error .divisionByZero ∧
    runProgram 100 [.ExpressionStatement
      (.InfixExpression (.IntegerLiteral 1) "/" (.IntegerLiteral 0))] =
      .panic .divisionByZero ∧
    evalIntegerInfixExpression "/" (.IntegerO 7) (.IntegerO 2) =
      .ok (.IntegerO 3) :=
  ⟨rfl, rfl, rfl⟩

/-- C3 (failing input): `peekChar` guards only `readPosition > len`, so at
`readPosition = len` it reads `l.input[len]`, out of the buffer — a Go
run-time panic instead of the claimed 0.  Consequently `NextToken` on the
inputs consisting of the single final byte `=` or `!` faults rather than
returning a token.  Only when `readPosition` is strictly greater than the
length does `peekChar` return 0. -/
theorem C3_peekChar_faults_at_end_of_input :
    Lexer.peekChar ⟨strBytes "=", 0, 1, 61⟩ = .error .indexOutOfRange ∧
    Lexer.NextToken (Lexer.New (strBytes "=")) = .error .indexOutOfRange ∧
    Lexer.NextToken (Lexer.New (strBytes "!")) = .error .indexOutOfRange ∧
    Lexer.peekChar ⟨strBytes "=", 1, 2, 0⟩ = .ok 0 := by
  decide

/-- C4: `if (true) { return 10; } return 1;` evaluates to Integer 10 as a
top-level program, and a call of a parameterless function with that same
body also returns Integer 10 — never 1. -/
theorem C4_return_propagation :
    resultOf (runProgram 100 [
      .ExpressionStatement (.IfExpression (.Boolean true)
        [.ReturnStatement (.IntegerLiteral 10)] none),
      .ReturnStatement (.IntegerLiteral 1)]) = some (.IntegerO 10) ∧
    resultOf (runProgram 100 [
      .ExpressionStatement (.CallExpression
        (.FunctionLiteral []
          [.ExpressionStatement (.IfExpression (.Boolean true)
            [.ReturnStatement (.IntegerLiteral 10)] none),
           .ReturnStatement (.IntegerLiteral 1)]) [])]) = some (.IntegerO 10) :=
  ⟨rfl, rfl⟩

/-- C5: indexing an Array with an Integer yields the element when the index
is in `[0, len)` and NULL otherwise; negative indices fall in the NULL case
(no wrap-around), and the operation never produces an Error or a fault. -/
theorem C5_array_index_in_range_or_null (elements : List Object) (idx : Int) :
    evalIndexExpression (.ArrayO elements) (.IntegerO idx) =
      .ok (if 0 ≤ idx ∧ idx < (elements.length : Int) then
             elements.getD idx.toNat NULL
           else NULL) := by
  have step : evalIndexExpression (.ArrayO elements) (.IntegerO idx) =
      evalArrayIndexExpression (.ArrayO elements) (.IntegerO idx) := rfl
  rw [step]
  simp only [evalArrayIndexExpression]
  split_ifs with h₁ h₂
  · omega
  · rfl
  · rfl
  · omega

/-- C6 (counterexample): evaluating `==` on two Null operands does not yield
a Boolean; it falls through to the unknown-operator branch of
evalInfixExpression and yields an Error.  The program evaluates
`(if (false) {}) == (if (false) {})`, whose operands are both NULL. -/
theorem C6_null_eq_null_is_error :
    evalInfixExpression "==" NULL NULL =
      .ok (.ErrorO "unknown operator: NULL == NULL") ∧
    resultOf (runProgram 100 [
      .ExpressionStatement (.InfixExpression
        (.IfExpression (.Boolean false) [] none) "=="
        (.IfExpression (.Boolean false) [] none))]) =
      some (.ErrorO "unknown operator: NULL == NULL") :=
  ⟨rfl, rfl⟩

/-- C6 (amended): `==` on two Boolean operands yields the Boolean of their
value equality (`true == true` is the Boolean true), determined by the
`.Value` fields and not by pointer identity; on two Null operands, however,
the code yields the Error `unknown operator: NULL == NULL` instead of a
Boolean. -/
theorem C6_boolean_eq_is_value_equality :
    (∀ b₁ b₂ : Bool, evalInfixExpression "==" (.BooleanO b₁) (.BooleanO b₂) =
      .ok (nativeBoolToBooleanObject (b₁ = b₂))) ∧
    evalInfixExpression "==" TRUE TRUE = .ok TRUE ∧
    evalInfixExpression "==" NULL NULL =
      .ok (.ErrorO "unknown operator: NULL == NULL") := by
  refine ⟨fun b₁ b₂ => ?_, rfl, rfl⟩
  cases b₁ <;> cases b₂ <;> rfl

/-- C7 (counterexample): the two source orders of the clauses `a : 1` and
`b : 2` are different ordered sequences, yet parseHashLiteral stores them as
the same map value — the storage retains no source order, so the pairs are
not kept as an order-preserving sequence. -/
theorem C7_hash_pairs_storage_forgets_source_order :
    parseHashLiteralStorage
        [(.StringLiteral "a", .IntegerLiteral 1), (.StringLiteral "b", .IntegerLiteral 2)] =
      parseHashLiteralStorage
        [(.StringLiteral "b", .IntegerLiteral 2), (.StringLiteral "a", .IntegerLiteral 1)] ∧
    [((.StringLiteral "a" : Expr), (.IntegerLiteral 1 : Expr)),
        (.StringLiteral "b", .IntegerLiteral 2)] ≠
      [(.StringLiteral "b", .IntegerLiteral 2), (.StringLiteral "a", .IntegerLiteral 1)] := by
  constructor
  · exact Quot.sound (List.Perm.swap _ _ _)
  · intro h
    injection h with h₁ _
    injection h₁ with hk _
    injection hk with hs
    exact absurd hs (by decide)

/-- C7 (amended): at the AST layer a hash literal's pairs are stored in an
unordered map keyed by the key node's identity: permuting the source clauses
yields the same stored value (source order is not preserved), while every
clause — duplicate keys included — is retained as its own entry, dedup being
left to runtime. -/
theorem C7_hash_pairs_unordered_with_duplicates
    (l₁ l₂ : List (Expr × Expr)) (h : l₁.Perm l₂) :
    parseHashLiteralStorage l₁ = parseHashLiteralStorage l₂ ∧
    (∀ pairs : List (Expr × Expr),
      Multiset.card (parseHashLiteralStorage pairs) = pairs.length) := by
  constructor
  · exact Quot.sound h
  · intro pairs
    simp [parseHashLiteralStorage]

/-- C7 witness: the amended statement applied to a concrete permutation,
including a duplicated key kept as two entries. -/
theorem C7_hash_pairs_unordered_witness :
    parseHashLiteralStorage
        [(.StringLiteral "k", .IntegerLiteral 1), (.StringLiteral "k", .IntegerLiteral 2)] =
      parseHashLiteralStorage
        [(.StringLiteral "k", .IntegerLiteral 2), (.StringLiteral "k", .IntegerLiteral 1)] ∧
    Multiset.card (parseHashLiteralStorage
      [((.StringLiteral "k" : Expr), (.IntegerLiteral 1 : Expr)),
       (.StringLiteral "k", .IntegerLiteral 2)]) = 2 := by
  have h := C7_hash_pairs_unordered_with_duplicates
    [(.StringLiteral "k", .IntegerLiteral 1), (.StringLiteral "k", .IntegerLiteral 2)]
    [(.StringLiteral "k", .IntegerLiteral 2), (.StringLiteral "k", .IntegerLiteral 1)]
    (List.Perm.swap _ _ _)
  exact ⟨h.1, h.2 _⟩

/-- C8 (failing inputs): every single-character byte whose kind exists in
src/token/token.go — `= , ; ( ) { }` and `+ - ! * / < >` — lexes to its own
kind with the byte as lexeme (`=` and `!` are shown with a following byte;
alone at the end of input they fault, see C3).  But `[`, `]` and `:` have no
kind in src/token/token.go:3-35 and no case in NextToken, so they lex to
ILLEGAL — although src/parser/parser.go:294,322,338,748 dispatches on
LBRACKET/RBRACKET/COLON tokens and the README documents hash-literal
syntax, so those kinds are plainly intended. -/
theorem C8_single_char_bytes :
    (Lexer.NextToken (Lexer.New (strBytes "=1"))).map Prod.fst =
      .ok ⟨token.ASSIGN, strBytes "="⟩ ∧
    (Lexer.NextToken (Lexer.New (strBytes "!1"))).map Prod.fst =
      .ok ⟨token.BANG, strBytes "!"⟩ ∧
    (Lexer.NextToken (Lexer.New (strBytes ","))).map Prod.fst =
      .ok ⟨token.COMMA, strBytes ","⟩ ∧
    (Lexer.NextToken (Lexer.New (strBytes ";"))).map Prod.fst =
      .ok ⟨token.SEMICOLON, strBytes ";"⟩ ∧
    (Lexer.NextToken (Lexer.New (strBytes "("))).map Prod.fst =
      .ok ⟨token.LPAREN, strBytes "("⟩ ∧
    (Lexer.NextToken (Lexer.New (strBytes ")"))).map Prod.fst =
      .ok ⟨token.RPAREN, strBytes ")"⟩ ∧
    (Lexer.NextToken (Lexer.New (strBytes "\x7b"))).map Prod.fst =
      .ok ⟨token.LBRACE, strBytes "\x7b"⟩ ∧
    (Lexer.NextToken (Lexer.New (strBytes "\x7d"))).map Prod.fst =
      .ok ⟨token.RBRACE, strBytes "\x7d"⟩ ∧
    (Lexer.NextToken (Lexer.New (strBytes "+"))).map Prod.fst =
      .ok ⟨token.PLUS, strBytes "+"⟩ ∧
    (Lexer.NextToken (Lexer.New (strBytes "-"))).map Prod.fst =
      .ok ⟨token.MINUS, strBytes "-"⟩ ∧
    (Lexer.NextToken (Lexer.New (strBytes "*"))).map Prod.fst =
      .ok ⟨token.ASTERISK, strBytes "*"⟩ ∧
    (Lexer.NextToken (Lexer.New (strBytes "/"))).map Prod.fst =
      .ok ⟨token.SLASH, strBytes "/"⟩ ∧
    (Lexer.NextToken (Lexer.New (strBytes "<"))).map Prod.fst =
      .ok ⟨token.LT, strBytes "<"⟩ ∧
    (Lexer.NextToken (Lexer.New (strBytes ">"))).map Prod.fst =
      .ok ⟨token.GT, strBytes ">"⟩ ∧
    (Lexer.NextToken (Lexer.New (strBytes "["))).map Prod.fst =
      .ok ⟨token.ILLEGAL, strBytes "["⟩ ∧
    (Lexer.NextToken (Lexer.New (strBytes "]"))).map Prod.fst =
      .ok ⟨token.ILLEGAL, strBytes "]"⟩ ∧
    (Lexer.NextToken (Lexer.New (strBytes ":"))).map Prod.fst =
      .ok ⟨token.ILLEGAL, strBytes ":"⟩ := by
  decide

/-- C9: applying the `!` operator twice to any runtime value yields the
Boolean of that value's truthiness; NULL and the Boolean false are falsy,
everything else — the integer 0 and the empty string included — is truthy.
(`evalPrefixExpression "!"` delegates to evalBangOperatorExpression for
every operand.) -/
theorem C9_double_bang_is_truthiness :
    (∀ V : Object, evalPrefixExpression "!" V = .ok (evalBangOperatorExpression V)) ∧
    (∀ V : Object,
      evalBangOperatorExpression (evalBangOperatorExpression V) =
        nativeBoolToBooleanObject (isTruthy V)) ∧
    isTruthy NULL = false ∧
    isTruthy FALSE = false ∧
    isTruthy (.IntegerO 0) = true ∧
    isTruthy (.StringO "") = true := by
  refine ⟨fun V => rfl, fun V => ?_, rfl, rfl, rfl, rfl⟩
  cases V with
  | BooleanO b => cases b <;> rfl
  | _ => rfl

/-- C10 (counterexample): `fnvCollisionA` and `fnvCollisionB` are distinct
strings with the same HashKey.  The source literal
`{fnvCollisionA: 1, fnvCollisionB: 2}` is stored at the AST layer as an
unordered map of clauses, so the evaluator's `range` over it may present the
clauses in either order; the reversed presentation is evaluated here, and
the retained pair is the EARLIER source pair — indexing with either key
yields 1, not the later pair's 2 that the claim promises. -/
theorem C10_later_pair_not_always_retained :
    parseHashLiteralStorage
        [(.StringLiteral fnvCollisionA, .IntegerLiteral 1),
         (.StringLiteral fnvCollisionB, .IntegerLiteral 2)] =
      parseHashLiteralStorage
        [(.StringLiteral fnvCollisionB, .IntegerLiteral 2),
         (.StringLiteral fnvCollisionA, .IntegerLiteral 1)] ∧
    fnvCollisionA ≠ fnvCollisionB ∧
    (Object.StringO fnvCollisionA).HashKeyOf = (Object.StringO fnvCollisionB).HashKeyOf ∧
    resultOf (runProgram 100 [.ExpressionStatement (.IndexExpression
      (.HashLiteral [(.StringLiteral fnvCollisionB, .IntegerLiteral 2),
                     (.StringLiteral fnvCollisionA, .IntegerLiteral 1)])
      (.StringLiteral fnvCollisionA))]) = some (.IntegerO 1) ∧
    resultOf (runProgram 100 [.ExpressionStatement (.IndexExpression
      (.HashLiteral [(.StringLiteral fnvCollisionB, .IntegerLiteral 2),
                     (.StringLiteral fnvCollisionA, .IntegerLiteral 1)])
      (.StringLiteral fnvCollisionB))]) = some (.IntegerO 1) := by
  refine ⟨Quot.sound (List.Perm.swap _ _ _), by decide, by decide, rfl, rfl⟩

/-- C10 (amended): two distinct String keys with equal FNV-1a hashes produce
the same HashKey, so a hash literal containing both retains exactly one of
the two pairs — the one presented last by Go's unspecified iteration over
the AST pair map; with source-order presentation that is the later source
pair — and indexing with either string returns the single retained value. -/
theorem C10_colliding_keys_one_pair_retained :
    fnv1a64 (strBytes fnvCollisionA) = fnv1a64 (strBytes fnvCollisionB) ∧
    (Object.StringO fnvCollisionA).HashKeyOf = (Object.StringO fnvCollisionB).HashKeyOf ∧
    resultOf (runProgram 100 [.ExpressionStatement
      (.HashLiteral [(.StringLiteral fnvCollisionA, .IntegerLiteral 1),
                     (.StringLiteral fnvCollisionB, .IntegerLiteral 2)])]) =
      some (.HashO [(⟨STRING_OBJ, fnv1a64 (strBytes fnvCollisionA)⟩,
        .StringO fnvCollisionB, .IntegerO 2)]) ∧
    resultOf (runProgram 100 [.ExpressionStatement
      (.HashLiteral [(.StringLiteral fnvCollisionB, .IntegerLiteral 2),
                     (.StringLiteral fnvCollisionA, .IntegerLiteral 1)])]) =
      some (.HashO [(⟨STRING_OBJ, fnv1a64 (strBytes fnvCollisionA)⟩,
        .StringO fnvCollisionA, .IntegerO 1)]) ∧
    resultOf (runProgram 100 [.ExpressionStatement (.IndexExpression
      (.HashLiteral [(.StringLiteral fnvCollisionA, .IntegerLiteral 1),
                     (.StringLiteral fnvCollisionB, .IntegerLiteral 2)])
      (.StringLiteral fnvCollisionA))]) = some (.IntegerO 2) ∧
    resultOf (runProgram 100 [.ExpressionStatement (.IndexExpression
      (.HashLiteral [(.StringLiteral fnvCollisionA, .IntegerLiteral 1),
                     (.StringLiteral fnvCollisionB, .IntegerLiteral 2)])
      (.StringLiteral fnvCollisionB))]) = some (.IntegerO 2) := by
  refine ⟨by decide, by decide, rfl, rfl, rfl, rfl⟩

end Kev
